import Mathlib

/-!
# Verification of the libinput timer subsystem and touchpad edge-motion FSM

Shallow embedding of:
  * the `usec` time-unit conversion helpers (`timer.h` / util-time part of the sources),
  * the timer subsystem (`timer.c`: `libinput_timer_set_flags`, `libinput_timer_cancel`,
    `libinput_timer_arm_timer_fd`, `libinput_timer_handler`, `libinput_timer_flush`),
  * the touchpad edge-motion state machine (`evdev-mt-touchpad-edge-motion.c`).

Machine integers are modelled as `Nat` with explicit `% 2^32` / `2^64 - 1` where the C
code's fixed-width semantics matter.  C doubles are modelled as exact rationals `ℚ`;
the only double computations the verified claims depend on are exact decimal
arithmetic and comparisons, which ℚ reproduces exactly.
-/

namespace Libinput

/-! ## usec unit conversions (timer.h)

`usec_t` is a newtype over `uint64_t`; we model its payload as `Nat` (values `< 2^64`
in all reachable states).  The conversion helpers take and return `uint32_t`, so the
32-bit wrap-around of C unsigned arithmetic is modelled explicitly with `% 2^32`.
-/

def U32MOD : Nat := 2 ^ 32

/-- C `uint32_t` arithmetic result: reduce mod `2^32`. -/
def u32 (n : Nat) : Nat := n % U32MOD

/-- `usec_from_millis(millis)` = `usec_from_uint64_t(millis * 1000)`; the
multiplication `millis * 1000` is performed in `uint32_t` and wraps. -/
def usec_from_millis (millis : Nat) : Nat := u32 (millis * 1000)

/-- `usec_from_seconds(secs)` = `usec_from_millis(secs * 1000)`; `secs * 1000` wraps
in `uint32_t`. -/
def usec_from_seconds (secs : Nat) : Nat := usec_from_millis (u32 (secs * 1000))

/-- `usec_from_hours(hours)` = `usec_from_seconds(hours * 3600)`; `hours * 3600`
wraps in `uint32_t`. -/
def usec_from_hours (hours : Nat) : Nat := usec_from_seconds (u32 (hours * 3600))

/-- `usec_to_millis(us)` = `(uint32_t)(usec_as_uint64_t(us) / 1000)`: 64-bit
division, then narrowing to the `uint32_t` return type. -/
def usec_to_millis (us : Nat) : Nat := u32 (us / 1000)

/-- `usec_to_seconds(us)` = `(uint32_t)(usec_as_uint64_t(us) / 1000000)`. -/
def usec_to_seconds (us : Nat) : Nat := u32 (us / 1000000)

/-- `usec_to_minutes(us)` = `usec_to_seconds(us) / 60` (uint32 division, no wrap
possible). -/
def usec_to_minutes (us : Nat) : Nat := usec_to_seconds us / 60

/-- `usec_to_hours(us)` = `usec_to_minutes(us) / 60`. -/
def usec_to_hours (us : Nat) : Nat := usec_to_minutes us / 60

/-! ## Timer subsystem (timer.c)

A logical timer is identified by a `Nat` id.  The subsystem state mirrors
`struct libinput` members used by `timer.c`:
  * `list`    — the intrusive active-timer list (`libinput->timer.list`);
    `list_insert` prepends, `list_remove` unlinks, scan order is list order;
  * `exp`     — each timer's `expire` field (`0` = inactive, the reserved sentinel);
  * `next_expiry` — the cached `libinput->timer.next_expiry`;
  * `fd`      — the absolute deadline the timerfd is armed to (`none` = disarmed,
    i.e. `timerfd_settime` with a zero `itimerspec`);
  * `scripts` — the timer callbacks.  Callbacks are external code; we deep-embed
    them as per-timer scripts: on its k-th invocation, timer `i`'s callback
    performs the `set`/`cancel` calls of `scripts i` entry k (callbacks mutate
    scheduling state only through the subsystem API, per the code's contract).

`log_*` calls and the `#ifndef NDEBUG` anomaly diagnostics in
`libinput_timer_set_flags` have no effect on scheduling state and are elided.
-/

/-- `UINT64_MAX`, used by `libinput_timer_arm_timer_fd` as the "no expiry" start
value of the minimum scan. -/
def U64MAX : Nat := 2 ^ 64 - 1

/-- A scheduling-state mutation a timer callback may perform (through the
subsystem API). -/
inductive Action where
  | set (i : Nat) (expire : Nat)
  | cancel (i : Nat)
deriving DecidableEq, Repr

/-- Timer subsystem state (see section comment). -/
structure TimerSys where
  list : List Nat
  exp : Nat → Nat
  next_expiry : Nat
  fd : Option Nat
  scripts : Nat → List (List Action)

/-- `libinput_timer_arm_timer_fd`: scan the active list for the earliest expiry
(starting from `UINT64_MAX`), arm the timerfd to it iff it is ≠ `UINT64_MAX`
(otherwise the zero `itimerspec` disarms the fd), and cache it in
`next_expiry`. -/
def libinput_timer_arm_timer_fd (s : TimerSys) : TimerSys :=
  let earliest := s.list.foldl (fun acc i => if s.exp i < acc then s.exp i else acc) U64MAX
  { s with fd := if earliest ≠ U64MAX then some earliest else none
           next_expiry := earliest }

/-- `libinput_timer_set_flags(timer, expire, flags)`: (debug-only logging elided;
the C code `assert(usec_ne(expire, 0))` — `expire ≠ 0` is a precondition carried
as a hypothesis by the theorems).  If the timer was inactive it is linked into
the list (`list_insert` prepends); the expiry is stored; the timerfd is
re-armed. -/
def libinput_timer_set_flags (s : TimerSys) (i : Nat) (expire : Nat) : TimerSys :=
  let s1 := if s.exp i = 0 then { s with list := i :: s.list } else s
  let s2 := { s1 with exp := fun j => if j = i then expire else s1.exp j }
  libinput_timer_arm_timer_fd s2

/-- `libinput_timer_set` = `libinput_timer_set_flags` with `TIMER_FLAG_NONE`
(the flag only selects a debug log message and has no state effect). -/
def libinput_timer_set (s : TimerSys) (i : Nat) (expire : Nat) : TimerSys :=
  libinput_timer_set_flags s i expire

/-- `libinput_timer_cancel(timer)`: no-op if the expiry is already zero;
otherwise zero the expiry, unlink, and re-arm the timerfd. -/
def libinput_timer_cancel (s : TimerSys) (i : Nat) : TimerSys :=
  if s.exp i = 0 then s
  else
    libinput_timer_arm_timer_fd
      { s with exp := fun j => if j = i then 0 else s.exp j
               list := s.list.erase i }

/-- Interpretation of one callback action through the subsystem API. -/
def applyAction (s : TimerSys) : Action → TimerSys
  | .set i e => libinput_timer_set s i e
  | .cancel i => libinput_timer_cancel s i

/-- A callback body: the actions of one script entry, run in order. -/
def runActions (s : TimerSys) (acts : List Action) : TimerSys :=
  acts.foldl applyAction s

/-- The `list_for_each_safe` scan of `libinput_timer_handler`: walk the active
list in order, skip timers with zero expiry, and return the first timer whose
expiry is ≤ `now` (the one the handler will fire before restarting). -/
def findDue (s : TimerSys) (now : Nat) : Option Nat :=
  s.list.find? (fun i => decide (s.exp i ≠ 0 ∧ s.exp i ≤ now))

/-- Pop the next script entry (the timer's callback body for this invocation);
an exhausted script yields a no-op callback. -/
def popScript (s : TimerSys) (i : Nat) : List Action × TimerSys :=
  match s.scripts i with
  | [] => ([], s)
  | acts :: rest => (acts, { s with scripts := fun j => if j = i then rest else s.scripts j })

/-- One recorded callback invocation of a `libinput_timer_handler` run. -/
structure TraceEntry where
  /-- the timer that fired -/
  id : Nat
  /-- subsystem state at the top of the scan that found it due -/
  pre : TimerSys
  /-- the actions its callback performed -/
  acts : List Action

/-- The state in which the callback body runs: the handler has called
`libinput_timer_cancel` on the fired timer ("Clear the timer before calling
timer_func"), and the invocation consumes the script entry. -/
def cbState (e : TraceEntry) : TimerSys :=
  (popScript (libinput_timer_cancel e.pre e.id) e.id).2

/-- Subsystem state after the callback body has run. -/
def afterCb (e : TraceEntry) : TimerSys :=
  runActions (cbState e) e.acts

/-- One iteration of the handler's `restart` loop: find the first due timer; if
none the handler returns, otherwise cancel it, invoke its callback, and record
the invocation. -/
def fireOne (s : TimerSys) (now : Nat) : Option TraceEntry :=
  match findDue s now with
  | none => none
  | some i => some ⟨i, s, (popScript (libinput_timer_cancel s i) i).1⟩

/-- `libinput_timer_handler(libinput, now)`: repeatedly fire the first due timer,
restarting the scan from the beginning of the list after every callback
("Restart the loop ... the timer func may trigger another unrelated timer to be
cancelled and removed"), until a full scan finds no due timer.  The C loop's
termination depends on the callbacks, so the model takes explicit fuel and
returns `none` when the fuel is exhausted before the loop exits;
`some (s', tr)` means the C call returns, in state `s'`, having performed
exactly the callback invocations `tr` in order. -/
def libinput_timer_handler : Nat → TimerSys → Nat → Option (TimerSys × List TraceEntry)
  | 0, _, _ => none
  | fuel + 1, s, now =>
    match fireOne s now with
    | none => some (s, [])
    | some e =>
      match libinput_timer_handler fuel (afterCb e) now with
      | none => none
      | some (s2, tr) => some (s2, e :: tr)

/-- `libinput_timer_flush(libinput, now)`: early-exit on the cached
`next_expiry` (`usec_is_zero(next_expiry) || usec_cmp(next_expiry, now) > 0`),
otherwise run the same `libinput_timer_handler` logic. -/
def libinput_timer_flush (fuel : Nat) (s : TimerSys) (now : Nat) :
    Option (TimerSys × List TraceEntry) :=
  if s.next_expiry = 0 ∨ now < s.next_expiry then some (s, [])
  else libinput_timer_handler fuel s now

/-- The `earliest_expire` scan of `libinput_timer_arm_timer_fd`, as a value. -/
def minExpire (s : TimerSys) : Nat :=
  s.list.foldl (fun acc i => if s.exp i < acc then s.exp i else acc) U64MAX

/-- Timer `i` is due in state `s` at time `now`: linked, armed, and expired.
(The handler's scan fires exactly the timers satisfying this.) -/
def due (s : TimerSys) (now i : Nat) : Prop :=
  i ∈ s.list ∧ s.exp i ≠ 0 ∧ s.exp i ≤ now

instance dueDecidable (s : TimerSys) (now i : Nat) : Decidable (due s now i) := by
  unfold due
  infer_instance

/-- Structural well-formedness of the subsystem state: the intrusive list is
duplicate-free, a timer is linked iff its expiry is non-zero (the §3 invariant),
and every expiry fits in `uint64_t`. -/
def WF (s : TimerSys) : Prop :=
  s.list.Nodup ∧ (∀ i, i ∈ s.list ↔ s.exp i ≠ 0) ∧ (∀ i, s.exp i ≤ U64MAX)

/-- An action respects the API contract: `set` with a non-zero expiry that fits
in `uint64_t` (the C `assert(usec_ne(expire, 0))` and the `uint64_t` domain). -/
def ActionOk : Action → Prop
  | .set _ e => e ≠ 0 ∧ e ≤ U64MAX
  | .cancel _ => True

/-- All callback scripts respect the API contract. -/
def ScriptsWF (s : TimerSys) : Prop :=
  ∀ k, ∀ entry ∈ s.scripts k, ∀ a ∈ entry, ActionOk a

/-- `a` mutates timer `i`'s scheduling state. -/
def touches (a : Action) (i : Nat) : Prop :=
  match a with
  | .set j _ => j = i
  | .cancel j => j = i

/-- No callback of any timer ever touches timer `i`. -/
def Untouched (s : TimerSys) (i : Nat) : Prop :=
  ∀ k, ∀ entry ∈ s.scripts k, ∀ a ∈ entry, ¬ touches a i

/-- Only timer `i`'s own callback ever touches timer `i` (it may re-arm or
cancel itself; no sibling does). -/
def OwnOnly (s : TimerSys) (i : Nat) : Prop :=
  ∀ k, k ≠ i → ∀ entry ∈ s.scripts k, ∀ a ∈ entry, ¬ touches a i

/-- No callback of any timer ever re-arms timer `i` (cancelling it is allowed). -/
def NeverSet (s : TimerSys) (i : Nat) : Prop :=
  ∀ k, ∀ entry ∈ s.scripts k, ∀ a ∈ entry, ∀ e, a ≠ .set i e

/-! ## Edge-motion state machine (evdev-mt-touchpad-edge-motion.c)

The FSM is a file-scope singleton `static struct edge_motion_fsm fsm`.  External
collaborators (tap state, touch enumeration, device geometry, the acceleration
filter and the motion-notification sink, `evdev_device_mm_to_units`) are not in
the sources; they are modelled from the spec where noted.

C doubles are modelled as `ℚ`.  One deliberate exception:
`calculate_motion_vector` normalizes the direction by `sqrt(dx² + dy²)`
(magnitude `1` or `√2`); `√2` is irrational, and no verified claim depends on
the normalized magnitude, so the model stores the pre-normalization integer
direction components.
-/

/-- `enum edge_motion_state`. -/
inductive EMState where
  | idle
  | drag_active
  | edge_motion
deriving DecidableEq, Repr

/-- The tap-machine states the `switch` in `tp_edge_motion_handle_drag_state`
distinguishes: the five `TAP_STATE_1FGTAP_DRAGGING*` values, with every other
`enum tp_tap_state` value collapsed to `tap_other` (the `default:` branch). -/
inductive TapState where
  | tap_dragging
  | tap_dragging_2
  | tap_dragging_wait
  | tap_dragging_or_tap
  | tap_dragging_or_doubletap
  | tap_other
deriving DecidableEq, Repr

/-- The `switch (tp->tap.state)` computing `drag_active`. -/
def drag_active_of : TapState → Bool
  | .tap_dragging => true
  | .tap_dragging_2 => true
  | .tap_dragging_wait => true
  | .tap_dragging_or_tap => true
  | .tap_dragging_or_doubletap => true
  | .tap_other => false

/-- `enum touch_state`: `TOUCH_NONE`, `TOUCH_HOVERING`, and every other value
(`TOUCH_BEGIN`/`TOUCH_UPDATE`/...) collapsed to `touch_active` — the loop in
`tp_edge_motion_handle_drag_state` only tests `!= TOUCH_NONE && != TOUCH_HOVERING`. -/
inductive TouchState where
  | touch_none
  | hovering
  | touch_active
deriving DecidableEq, Repr

/-- One touch: state and position in device units (`t->point`). -/
structure Touch where
  state : TouchState
  x : Int
  y : Int
deriving DecidableEq, Repr

/-- Edge bitmask bits (`EDGE_NONE`/`EDGE_LEFT`/`EDGE_RIGHT`/`EDGE_TOP`/
`EDGE_BOTTOM` are declared outside the sources; modelled from the spec as a
bitmask with one distinct bit per edge). -/
def EDGE_NONE : Nat := 0

/-- Left-edge bit of the edge bitmask. -/
def EDGE_LEFT : Nat := 1

/-- Right-edge bit of the edge bitmask. -/
def EDGE_RIGHT : Nat := 2

/-- Top-edge bit of the edge bitmask. -/
def EDGE_TOP : Nat := 4

/-- Bottom-edge bit of the edge bitmask. -/
def EDGE_BOTTOM : Nat := 8

/-- A touchpad device (`struct tp_dispatch` / `struct evdev_device`), restricted
to the fields the edge-motion module reads: identity, axis ranges and
resolutions (`abs.absinfo_x/y`), the accel scale coefficients
(`tp->accel.x/y_scale_coeff`), and the per-cycle gesture inputs (tap state and
touches).  Modelled from the spec: "device geometry (axis minimum/maximum,
physical-to-logical unit conversion)" — these live outside the sources. -/
structure Device where
  id : Nat
  min_x : Int
  min_y : Int
  max_x : Int
  max_y : Int
  /-- units per mm, x axis -/
  res_x : Int
  /-- units per mm, y axis -/
  res_y : Int
  x_scale_coeff : ℚ
  y_scale_coeff : ℚ
  tap_state : TapState
  touches : List Touch

/-- Modelled from the spec: `evdev_device_mm_to_units` — the device's
physical-to-logical mapping, converting physical millimetres to device units
via the axis resolution (units/mm), offset by the axis minimum.  The module
calls it only with the integral 5 mm edge margin, so the model takes integral
millimetres. -/
def evdev_device_mm_to_units (d : Device) (mm_x mm_y : Int) : Int × Int :=
  (mm_x * d.res_x + d.min_x, mm_y * d.res_y + d.min_y)

/-- `EDGE_MOTION_CONFIG_SPEED_MM_S` (70.0). -/
def EDGE_MOTION_CONFIG_SPEED_MM_S : ℚ := 70

/-- `EDGE_MOTION_CONFIG_MIN_INTERVAL_US` (8000). -/
def EDGE_MOTION_CONFIG_MIN_INTERVAL_US : Nat := 8000

/-- `EDGE_MOTION_CONFIG_EDGE_THRESHOLD_MM` (5.0; integral, see
`evdev_device_mm_to_units`). -/
def EDGE_MOTION_CONFIG_EDGE_THRESHOLD_MM : Int := 5

/-- `detect_touch_edge(tp, t)`: convert the 5 mm margin to device units, then
four independent near-boundary tests OR their bits into the mask (left/right
against `threshold.x` and `absinfo_x->maximum - threshold.x`, top/bottom
likewise on y). -/
def detect_touch_edge (d : Device) (t : Touch) : Nat :=
  let threshold := evdev_device_mm_to_units d
    EDGE_MOTION_CONFIG_EDGE_THRESHOLD_MM EDGE_MOTION_CONFIG_EDGE_THRESHOLD_MM
  let e0 := EDGE_NONE
  let e1 := if t.x < threshold.1 then e0 ||| EDGE_LEFT else e0
  let e2 := if t.x > d.max_x - threshold.1 then e1 ||| EDGE_RIGHT else e1
  let e3 := if t.y < threshold.2 then e2 ||| EDGE_TOP else e2
  if t.y > d.max_y - threshold.2 then e3 ||| EDGE_BOTTOM else e3

/-- `calculate_motion_vector(edge, &dx, &dy)`: left-over-right and
top-over-bottom `else if` chains produce a direction in `{-1,0,1}²`.  The
source then divides by `sqrt(dx²+dy²)`; the model keeps the pre-normalization
integer components (see the section comment). -/
def calculate_motion_vector (edge : Nat) : Int × Int :=
  let dx : Int := if edge &&& EDGE_LEFT ≠ 0 then -1
                  else if edge &&& EDGE_RIGHT ≠ 0 then 1 else 0
  let dy : Int := if edge &&& EDGE_TOP ≠ 0 then -1
                  else if edge &&& EDGE_BOTTOM ≠ 0 then 1 else 0
  (dx, dy)

/-- `struct edge_motion_fsm`, together with its embedded timer's scheduling
state.  `tp` is the bound-device pointer (`none` = unbound NULL);
`timer_expire` is the embedded `struct libinput_timer`'s `expire` field in the
timer subsystem (0 = inactive, i.e. not armed — see `TimerSys`). -/
structure EdgeMotionFsm where
  current_state : EMState
  last_motion_time : Nat
  current_edge : Nat
  motion_dx : Int
  motion_dy : Int
  continuous_motion_count : Nat
  tp : Option Device
  timer_expire : Nat

/-- A synthetic pointer-motion notification, as handed to the external
collaborators: `filter_dispatch(tp->device->pointer.filter, &raw, tp, time)`
followed by `pointer_notify_motion(&tp->device->base, time, &delta, &raw)`.
The acceleration filter is an opaque external pure function, so the
notification records the arguments the module passes: the device it is
filtered through and notified on, the time, and the raw device-unit delta
(direction × distance × the device's scale coefficients, with the direction's
`√2` normalization kept out per the section comment). -/
structure Motion where
  dev : Nat
  time : Nat
  raw_x : ℚ
  raw_y : ℚ

/-- `inject_accumulated_motion(tp, time)`: baseline-only when
`last_motion_time == 0`; otherwise convert elapsed µs × 70 mm/s into mm, skip
below the 0.001 mm negligibility threshold, else scale by the device
coefficients, notify, advance the baseline and bump the continuous-motion
counter. -/
def inject_accumulated_motion (fsm : EdgeMotionFsm) (d : Device) (time : Nat) :
    EdgeMotionFsm × List Motion :=
  if fsm.last_motion_time = 0 then
    ({ fsm with last_motion_time := time }, [])
  else
    let time_since_last := time - fsm.last_motion_time
    let dist_mm : ℚ := EDGE_MOTION_CONFIG_SPEED_MM_S * ((time_since_last : ℚ) / 1000000)
    if dist_mm < 1 / 1000 then (fsm, [])
    else
      ({ fsm with last_motion_time := time
                  continuous_motion_count := fsm.continuous_motion_count + 1 },
       [⟨d.id, time, (fsm.motion_dx : ℚ) * dist_mm * d.x_scale_coeff,
         (fsm.motion_dy : ℚ) * dist_mm * d.y_scale_coeff⟩])

/-- `tp_edge_motion_handle_timeout(now, data)`: return unless in
`STATE_EDGE_MOTION`; otherwise inject motion on the *bound* device
(`fsm_ptr->tp`) and re-arm the embedded timer to `now + 8000 µs`.
(The `none` branch is unreachable when the state is `EDGE_MOTION` — the
invariant proved for C5 — and would be a NULL dereference in C.) -/
def tp_edge_motion_handle_timeout (fsm : EdgeMotionFsm) (now : Nat) :
    EdgeMotionFsm × List Motion :=
  if fsm.current_state ≠ EMState.edge_motion then (fsm, [])
  else
    match fsm.tp with
    | none => (fsm, [])
    | some d =>
      let (fsm1, ms) := inject_accumulated_motion fsm d now
      ({ fsm1 with timer_expire := now + EDGE_MOTION_CONFIG_MIN_INTERVAL_US }, ms)

/-- The timer subsystem firing the FSM's embedded timer: per
`libinput_timer_handler` the timer only fires when armed and expired, and is
cancelled (expiry zeroed, unlinked) before `tp_edge_motion_handle_timeout`
runs. -/
def edge_motion_timer_fire (fsm : EdgeMotionFsm) (now : Nat) :
    EdgeMotionFsm × List Motion :=
  if fsm.timer_expire ≠ 0 ∧ fsm.timer_expire ≤ now then
    tp_edge_motion_handle_timeout { fsm with timer_expire := 0 } now
  else (fsm, [])

/-- `tp_edge_motion_init(tp)`: early-return if already bound (`if (fsm.tp)
return;`); otherwise `memset` the FSM to zero (state `IDLE`, counters and the
embedded timer's expiry zeroed), bind `tp`, and `libinput_timer_init` the
embedded timer (which does not arm it). -/
def tp_edge_motion_init (fsm : EdgeMotionFsm) (d : Device) : EdgeMotionFsm :=
  match fsm.tp with
  | some _ => fsm
  | none =>
    { current_state := .idle
      last_motion_time := 0
      current_edge := 0
      motion_dx := 0
      motion_dy := 0
      continuous_motion_count := 0
      tp := some d
      timer_expire := 0 }

/-- The touch scan of `tp_edge_motion_handle_drag_state`: the first touch that
is neither `TOUCH_NONE` nor `TOUCH_HOVERING` determines the edge; no such
touch leaves `EDGE_NONE`. -/
def detected_edge_of (d : Device) (drag_active : Bool) : Nat :=
  if drag_active then
    match d.touches.find? (fun t =>
        decide (t.state ≠ TouchState.touch_none ∧ t.state ≠ TouchState.hovering)) with
    | some t => detect_touch_edge d t
    | none => EDGE_NONE
  else EDGE_NONE

/-- The next FSM state `tp_edge_motion_handle_drag_state` computes from the
argument device's tap state and touches. -/
def next_state_of (d : Device) : EMState :=
  let drag_active := drag_active_of d.tap_state
  let detected := detected_edge_of d drag_active
  if drag_active then
    (if detected ≠ EDGE_NONE then .edge_motion else .drag_active)
  else .idle

/-- `tp_edge_motion_handle_drag_state(tp, time)`: lazily bind on first use;
compute `drag_active` from the argument device's tap state and the detected
edge from its touches and geometry; on a state change update state/edge, reset
the counter when leaving `EDGE_MOTION`, cancel the embedded timer on entering
`IDLE`/`DRAG_ACTIVE`, and on entering `EDGE_MOTION` compute the direction
vector, set the injection baseline and synchronously invoke
`tp_edge_motion_handle_timeout` once; with no state change but a changed edge
set while in `EDGE_MOTION`, recompute the direction only.  Returns
`(current_state == STATE_EDGE_MOTION)`. -/
def tp_edge_motion_handle_drag_state (fsm0 : EdgeMotionFsm) (tp : Device) (time : Nat) :
    EdgeMotionFsm × List Motion × Bool :=
  let fsm := match fsm0.tp with
             | none => tp_edge_motion_init fsm0 tp
             | some _ => fsm0
  let detected_edge := detected_edge_of tp (drag_active_of tp.tap_state)
  let next_state := next_state_of tp
  if next_state ≠ fsm.current_state then
    let fsmA := { fsm with current_state := next_state, current_edge := detected_edge }
    let fsmB := if next_state ≠ EMState.edge_motion then
                  { fsmA with continuous_motion_count := 0 }
                else fsmA
    match next_state with
    | .idle | .drag_active =>
      ({ fsmB with timer_expire := 0 }, [], false)
    | .edge_motion =>
      let v := calculate_motion_vector detected_edge
      let fsmC := { fsmB with motion_dx := v.1, motion_dy := v.2, last_motion_time := time }
      let (fsmD, ms) := tp_edge_motion_handle_timeout fsmC time
      (fsmD, ms, true)
  else if fsm.current_state = EMState.edge_motion ∧ detected_edge ≠ fsm.current_edge then
    let v := calculate_motion_vector detected_edge
    ({ fsm with current_edge := detected_edge, motion_dx := v.1, motion_dy := v.2 }, [], true)
  else
    (fsm, [], decide (fsm.current_state = EMState.edge_motion))

/-- The shape of a completed `libinput_timer_handler` run: a chain of `fireOne`
steps, each scanning the *whole* list of its pre-state from the beginning
(`restart:`), ending in a full scan that finds no due timer. -/
inductive HandlerChain (now : Nat) : TimerSys → List TraceEntry → TimerSys → Prop where
  | nil (s : TimerSys) (h : findDue s now = none) : HandlerChain now s [] s
  | cons (s : TimerSys) (e : TraceEntry) (tr : List TraceEntry) (s2 : TimerSys)
      (h : fireOne s now = some e) (hrest : HandlerChain now (afterCb e) tr s2) :
      HandlerChain now s (e :: tr) s2

/-- The cached `next_expiry` is accurate: it equals the minimum-expiry scan
(`UINT64_MAX` when the list is empty), except in the initial state where the
zero-initialized cache has not yet been written by any arming (`list` empty,
cache `0`). -/
def CacheOK (s : TimerSys) : Prop :=
  s.next_expiry = minExpire s ∨ (s.list = [] ∧ s.next_expiry = 0)

/-- The timerfd arming matches what the last `libinput_timer_arm_timer_fd`
computes from the current state: armed to the minimum active expiry unless the
scan result is the `UINT64_MAX` sentinel (empty list — or an active timer with
expiry exactly `UINT64_MAX`), in which case the zero `itimerspec` disarms it. -/
def ArmOK (s : TimerSys) : Prop :=
  s.fd = if minExpire s = U64MAX then none else some (minExpire s)

/-- One externally-invoked timer API call (for the C2 operation sequences). -/
inductive TimerOp where
  | set (i : Nat) (expire : Nat)
  | cancel (i : Nat)
deriving DecidableEq, Repr

/-- Apply one API call. -/
def applyOp (s : TimerSys) : TimerOp → TimerSys
  | .set i e => libinput_timer_set s i e
  | .cancel i => libinput_timer_cancel s i

/-- Apply a sequence of API calls in order. -/
def applyOps (s : TimerSys) (ops : List TimerOp) : TimerSys :=
  ops.foldl applyOp s

/-- The state after `libinput_timer_subsys_init`: empty list, zeroed cache,
timerfd created unarmed.  (`scripts` parametrizes the callbacks registered via
`libinput_timer_init`.) -/
def initTimerSys (scripts : Nat → List (List Action)) : TimerSys :=
  { list := [], exp := fun _ => 0, next_expiry := 0, fd := none, scripts := scripts }

/-- An operation sequence respecting the API contract: every `set` carries a
non-zero expiry (the C `assert`) that fits in `uint64_t`. -/
def OpsWF (ops : List TimerOp) : Prop :=
  ∀ op ∈ ops, match op with
    | .set _ e => e ≠ 0 ∧ e ≤ U64MAX
    | .cancel _ => True

/-! ### Concrete states for counterexamples and witnesses -/

/-- Two timers due at `now = 10`; timer 1's callback cancels its due sibling 2. -/
def cexCancelSibling : TimerSys :=
  { list := [1, 2]
    exp := fun j => if j = 1 then 5 else if j = 2 then 7 else 0
    next_expiry := 5
    fd := some 5
    scripts := fun j => if j = 1 then [[Action.cancel 2]] else [] }

/-- One timer due at `now = 10` whose callback re-arms itself once to `9 ≤ now`. -/
def wCexRearm : TimerSys :=
  { list := [1]
    exp := fun j => if j = 1 then 5 else 0
    next_expiry := 5
    fd := some 5
    scripts := fun j => if j = 1 then [[Action.set 1 9]] else [] }

/-- Two timers due at `now = 10`, with no callback scripts at all. -/
def wPlainTwo : TimerSys :=
  { list := [1, 2]
    exp := fun j => if j = 1 then 5 else if j = 2 then 7 else 0
    next_expiry := 5
    fd := some 5
    scripts := fun _ => [] }

/-! ## Edge-motion FSM: invariants and concrete states -/

/-- C5's invariant: the embedded timer is armed iff the FSM is in
`STATE_EDGE_MOTION`; moreover an unbound FSM is idle with everything zeroed
(the file-scope zero initializer / `tp_edge_motion_cleanup` state), which
guards the timeout callback's `fsm_ptr->tp` dereference. -/
def ArmIff (fsm : EdgeMotionFsm) : Prop :=
  (fsm.timer_expire ≠ 0 ↔ fsm.current_state = EMState.edge_motion) ∧
  (fsm.tp = none → fsm.current_state = EMState.idle)

/-- A device with drag active and one touch at the left edge (geometry:
0..1000 device units, 10 units/mm, so the 5 mm margin is 50 units). -/
def devDragLeft : Device :=
  { id := 7, min_x := 0, min_y := 0, max_x := 1000, max_y := 1000
    res_x := 10, res_y := 10, x_scale_coeff := 1, y_scale_coeff := 1
    tap_state := .tap_dragging, touches := [⟨.touch_active, 10, 500⟩] }

/-- Same geometry, drag active, touch in the middle (no edge). -/
def devDragMiddle : Device :=
  { id := 7, min_x := 0, min_y := 0, max_x := 1000, max_y := 1000
    res_x := 10, res_y := 10, x_scale_coeff := 1, y_scale_coeff := 1
    tap_state := .tap_dragging, touches := [⟨.touch_active, 500, 500⟩] }

/-- A second, distinct device (id 8), drag active with a left-edge touch. -/
def devOther : Device :=
  { id := 8, min_x := 0, min_y := 0, max_x := 2000, max_y := 2000
    res_x := 20, res_y := 20, x_scale_coeff := 2, y_scale_coeff := 2
    tap_state := .tap_dragging, touches := [⟨.touch_active, 10, 500⟩] }

/-- The zero-initialized file-scope FSM (`static struct edge_motion_fsm fsm`,
state `STATE_IDLE`, `tp = NULL`). -/
def fsmInitial : EdgeMotionFsm :=
  { current_state := .idle, last_motion_time := 0, current_edge := 0
    motion_dx := 0, motion_dy := 0, continuous_motion_count := 0
    tp := none, timer_expire := 0 }

/-- An FSM bound to `devDragLeft`, idle. -/
def fsmBoundA : EdgeMotionFsm :=
  { current_state := .idle, last_motion_time := 0, current_edge := 0
    motion_dx := 0, motion_dy := 0, continuous_motion_count := 0
    tp := some devDragLeft, timer_expire := 0 }

/-- A 6 mm-wide touchpad: 0..60 units at 10 units/mm, margin 50 units, so the
left and right 5 mm margins overlap. -/
def devTiny : Device :=
  { id := 0, min_x := 0, min_y := 0, max_x := 60, max_y := 1000
    res_x := 10, res_y := 10, x_scale_coeff := 1, y_scale_coeff := 1
    tap_state := .tap_other, touches := [] }

/-- A device whose 5 mm margins overlap only the left/top corner region. -/
def devCorner : Device :=
  { id := 1, min_x := 0, min_y := 0, max_x := 1000, max_y := 1000
    res_x := 10, res_y := 10, x_scale_coeff := 1, y_scale_coeff := 1
    tap_state := .tap_other, touches := [] }

/-! ## Timer subsystem: basic lemmas -/

theorem arm_list (s : TimerSys) : (libinput_timer_arm_timer_fd s).list = s.list := rfl

theorem arm_exp (s : TimerSys) : (libinput_timer_arm_timer_fd s).exp = s.exp := rfl

theorem arm_scripts (s : TimerSys) : (libinput_timer_arm_timer_fd s).scripts = s.scripts := rfl

theorem arm_next_expiry (s : TimerSys) :
    (libinput_timer_arm_timer_fd s).next_expiry = minExpire s := rfl

theorem arm_fd (s : TimerSys) :
    (libinput_timer_arm_timer_fd s).fd =
      if minExpire s ≠ U64MAX then some (minExpire s) else none := rfl

theorem set_flags_exp (s : TimerSys) (i e : Nat) :
    (libinput_timer_set_flags s i e).exp = fun j => if j = i then e else s.exp j := by
  simp only [libinput_timer_set_flags, arm_exp]
  split <;> rfl

theorem set_flags_list_of_inactive (s : TimerSys) (i e : Nat) (h : s.exp i = 0) :
    (libinput_timer_set_flags s i e).list = i :: s.list := by
  simp only [libinput_timer_set_flags, arm_list]
  split <;> rfl

theorem set_flags_list_of_active (s : TimerSys) (i e : Nat) (h : s.exp i ≠ 0) :
    (libinput_timer_set_flags s i e).list = s.list := by
  simp only [libinput_timer_set_flags, arm_list, if_neg h]

theorem set_flags_scripts (s : TimerSys) (i e : Nat) :
    (libinput_timer_set_flags s i e).scripts = s.scripts := by
  simp only [libinput_timer_set_flags, arm_scripts]
  split <;> rfl

theorem cancel_of_inactive (s : TimerSys) (i : Nat) (h : s.exp i = 0) :
    libinput_timer_cancel s i = s := by
  simp only [libinput_timer_cancel, if_pos h]

theorem cancel_exp_self (s : TimerSys) (i : Nat) : (libinput_timer_cancel s i).exp i = 0 := by
  simp only [libinput_timer_cancel]
  split
  · assumption
  · simp [arm_exp]

theorem cancel_exp_other (s : TimerSys) (i j : Nat) (h : j ≠ i) :
    (libinput_timer_cancel s i).exp j = s.exp j := by
  simp only [libinput_timer_cancel]
  split
  · rfl
  · simp [arm_exp, if_neg h]

theorem cancel_list_of_active (s : TimerSys) (i : Nat) (h : s.exp i ≠ 0) :
    (libinput_timer_cancel s i).list = s.list.erase i := by
  simp only [libinput_timer_cancel, if_neg h, arm_list]

theorem cancel_scripts (s : TimerSys) (i : Nat) :
    (libinput_timer_cancel s i).scripts = s.scripts := by
  simp only [libinput_timer_cancel]
  split
  · rfl
  · simp [arm_scripts]

theorem cancel_mem_other (s : TimerSys) (i j : Nat) (h : j ≠ i) :
    j ∈ (libinput_timer_cancel s i).list ↔ j ∈ s.list := by
  simp only [libinput_timer_cancel]
  split
  · exact Iff.rfl
  · simp only [arm_list]
    exact List.mem_erase_of_ne h

theorem WF_arm (s : TimerSys) (h : WF s) : WF (libinput_timer_arm_timer_fd s) := h

theorem WF_cancel (s : TimerSys) (i : Nat) (h : WF s) : WF (libinput_timer_cancel s i) := by
  obtain ⟨hnd, hmem, hle⟩ := h
  by_cases hi : s.exp i = 0
  · rw [cancel_of_inactive s i hi]; exact ⟨hnd, hmem, hle⟩
  · refine ⟨?_, ?_, ?_⟩
    · rw [cancel_list_of_active s i hi]; exact List.Nodup.erase i hnd
    · intro j
      by_cases hji : j = i
      · subst hji
        rw [cancel_list_of_active s j hi]
        simp [hnd.mem_erase_iff, cancel_exp_self]
      · rw [cancel_mem_other s i j hji, cancel_exp_other s i j hji]
        exact hmem j
    · intro j
      by_cases hji : j = i
      · subst hji; rw [cancel_exp_self]; exact Nat.zero_le _
      · rw [cancel_exp_other s i j hji]; exact hle j

theorem WF_set_flags (s : TimerSys) (i e : Nat) (h : WF s) (he : e ≠ 0) (hle : e ≤ U64MAX) :
    WF (libinput_timer_set_flags s i e) := by
  obtain ⟨hnd, hmem, hub⟩ := h
  by_cases hi : s.exp i = 0
  · refine ⟨?_, ?_, ?_⟩
    · rw [set_flags_list_of_inactive s i e hi]
      exact List.nodup_cons.2 ⟨fun hin => (hmem i).1 hin hi, hnd⟩
    · intro j
      rw [set_flags_list_of_inactive s i e hi, set_flags_exp]
      by_cases hji : j = i
      · subst hji; simp [he]
      · simp only [List.mem_cons, if_neg hji]
        constructor
        · rintro (hc | hc)
          · exact absurd hc hji
          · exact (hmem j).1 hc
        · intro hc; exact Or.inr ((hmem j).2 hc)
    · intro j
      rw [set_flags_exp]
      by_cases hji : j = i
      · simp [hji, hle]
      · simp only [if_neg hji]; exact hub j
  · refine ⟨?_, ?_, ?_⟩
    · rw [set_flags_list_of_active s i e hi]; exact hnd
    · intro j
      rw [set_flags_list_of_active s i e hi, set_flags_exp]
      by_cases hji : j = i
      · subst hji; simp [he, (hmem j).2 hi]
      · simp only [if_neg hji]; exact hmem j
    · intro j
      rw [set_flags_exp]
      by_cases hji : j = i
      · simp [hji, hle]
      · simp only [if_neg hji]; exact hub j

/-! ### The earliest-expiry fold -/

theorem foldMin_le_acc (f : Nat → Nat) (l : List Nat) (acc : Nat) :
    l.foldl (fun a i => if f i < a then f i else a) acc ≤ acc := by
  induction l generalizing acc with
  | nil => exact Nat.le_refl _
  | cons x xs ih =>
    simp only [List.foldl_cons]
    by_cases h : f x < acc
    · simp only [if_pos h]
      exact Nat.le_trans (ih (f x)) (Nat.le_of_lt h)
    · simp only [if_neg h]
      exact ih acc

theorem foldMin_le_mem (f : Nat → Nat) (l : List Nat) (acc : Nat) (i : Nat) (hi : i ∈ l) :
    l.foldl (fun a j => if f j < a then f j else a) acc ≤ f i := by
  induction l generalizing acc with
  | nil => cases hi
  | cons x xs ih =>
    simp only [List.foldl_cons]
    rcases List.mem_cons.1 hi with h | h
    · subst h
      by_cases hx : f i < acc
      · simp only [if_pos hx]; exact foldMin_le_acc f xs (f i)
      · simp only [if_neg hx]
        exact Nat.le_trans (foldMin_le_acc f xs acc) (Nat.le_of_not_lt hx)
    · exact ih _ h

theorem foldMin_cases (f : Nat → Nat) (l : List Nat) (acc : Nat) :
    l.foldl (fun a j => if f j < a then f j else a) acc = acc ∨
      ∃ i ∈ l, l.foldl (fun a j => if f j < a then f j else a) acc = f i := by
  induction l generalizing acc with
  | nil => exact Or.inl rfl
  | cons x xs ih =>
    simp only [List.foldl_cons]
    by_cases hx : f x < acc
    · simp only [if_pos hx]
      rcases ih (f x) with h | ⟨i, hi, h⟩
      · exact Or.inr ⟨x, List.mem_cons_self x xs, h⟩
      · exact Or.inr ⟨i, List.mem_cons_of_mem x hi, h⟩
    · simp only [if_neg hx]
      rcases ih acc with h | ⟨i, hi, h⟩
      · exact Or.inl h
      · exact Or.inr ⟨i, List.mem_cons_of_mem x hi, h⟩

theorem minExpire_le (s : TimerSys) (i : Nat) (hi : i ∈ s.list) : minExpire s ≤ s.exp i :=
  foldMin_le_mem s.exp s.list U64MAX i hi

theorem minExpire_cases (s : TimerSys) :
    minExpire s = U64MAX ∨ ∃ i ∈ s.list, minExpire s = s.exp i :=
  foldMin_cases s.exp s.list U64MAX

theorem minExpire_nil (s : TimerSys) (h : s.list = []) : minExpire s = U64MAX := by
  unfold minExpire
  rw [h]
  rfl

/-! ### Callback actions -/

theorem applyAction_scripts (s : TimerSys) (a : Action) :
    (applyAction s a).scripts = s.scripts := by
  cases a with
  | set i e => exact set_flags_scripts s i e
  | cancel i => exact cancel_scripts s i

theorem runActions_scripts (s : TimerSys) (acts : List Action) :
    (runActions s acts).scripts = s.scripts := by
  induction acts generalizing s with
  | nil => rfl
  | cons a rest ih =>
    simp only [runActions, List.foldl_cons] at *
    rw [ih (applyAction s a), applyAction_scripts]

theorem applyAction_WF (s : TimerSys) (a : Action) (h : WF s) (ha : ActionOk a) :
    WF (applyAction s a) := by
  cases a with
  | set i e => exact WF_set_flags s i e h ha.1 ha.2
  | cancel i => exact WF_cancel s i h

theorem runActions_WF (s : TimerSys) (acts : List Action) (h : WF s)
    (ha : ∀ a ∈ acts, ActionOk a) : WF (runActions s acts) := by
  induction acts generalizing s with
  | nil => exact h
  | cons a rest ih =>
    simp only [runActions, List.foldl_cons] at *
    exact ih (applyAction s a) (applyAction_WF s a h (ha a (List.mem_cons_self a rest)))
      (fun b hb => ha b (List.mem_cons_of_mem a hb))

theorem applyAction_exp_untouched (s : TimerSys) (a : Action) (i : Nat) (h : ¬ touches a i) :
    (applyAction s a).exp i = s.exp i := by
  cases a with
  | set j e =>
    have hji : j ≠ i := h
    simp only [applyAction, libinput_timer_set, set_flags_exp]
    exact if_neg (fun hc : i = j => hji hc.symm)
  | cancel j =>
    have hji : j ≠ i := h
    exact cancel_exp_other s j i (fun hc => hji hc.symm)

theorem applyAction_mem_untouched (s : TimerSys) (a : Action) (i : Nat) (h : ¬ touches a i) :
    (i ∈ (applyAction s a).list ↔ i ∈ s.list) := by
  cases a with
  | set j e =>
    have hji : j ≠ i := h
    simp only [applyAction, libinput_timer_set]
    by_cases hj : s.exp j = 0
    · rw [set_flags_list_of_inactive s j e hj]
      constructor
      · intro hc
        rcases List.mem_cons.1 hc with hh | hh
        · exact absurd hh (fun hh2 => hji hh2.symm)
        · exact hh
      · exact fun hc => List.mem_cons.2 (Or.inr hc)
    · rw [set_flags_list_of_active s j e hj]
  | cancel j =>
    have hji : j ≠ i := h
    exact cancel_mem_other s j i (fun hc => hji hc.symm)

theorem runActions_exp_untouched (s : TimerSys) (acts : List Action) (i : Nat)
    (h : ∀ a ∈ acts, ¬ touches a i) : (runActions s acts).exp i = s.exp i := by
  induction acts generalizing s with
  | nil => rfl
  | cons a rest ih =>
    simp only [runActions, List.foldl_cons] at *
    rw [ih (applyAction s a) (fun b hb => h b (List.mem_cons_of_mem a hb)),
      applyAction_exp_untouched s a i (h a (List.mem_cons_self a rest))]

theorem runActions_mem_untouched (s : TimerSys) (acts : List Action) (i : Nat)
    (h : ∀ a ∈ acts, ¬ touches a i) : (i ∈ (runActions s acts).list ↔ i ∈ s.list) := by
  induction acts generalizing s with
  | nil => exact Iff.rfl
  | cons a rest ih =>
    simp only [runActions, List.foldl_cons] at *
    rw [ih (applyAction s a) (fun b hb => h b (List.mem_cons_of_mem a hb)),
      applyAction_mem_untouched s a i (h a (List.mem_cons_self a rest))]

theorem applyAction_exp_zero_of_no_set (s : TimerSys) (a : Action) (i : Nat)
    (h : ∀ e, a ≠ .set i e) (hz : s.exp i = 0) : (applyAction s a).exp i = 0 := by
  cases a with
  | set j e =>
    have hji : j ≠ i := fun hc => h e (by rw [hc])
    simp only [applyAction, libinput_timer_set, set_flags_exp]
    rw [if_neg (fun hc : i = j => hji hc.symm)]
    exact hz
  | cancel j =>
    simp only [applyAction]
    by_cases hji : j = i
    · subst hji; exact cancel_exp_self s j
    · rw [cancel_exp_other s j i (fun hc => hji hc.symm)]; exact hz

theorem runActions_exp_zero_of_no_set (s : TimerSys) (acts : List Action) (i : Nat)
    (h : ∀ a ∈ acts, ∀ e, a ≠ .set i e) (hz : s.exp i = 0) :
    (runActions s acts).exp i = 0 := by
  induction acts generalizing s with
  | nil => exact hz
  | cons a rest ih =>
    simp only [runActions, List.foldl_cons] at *
    exact ih (applyAction s a) (fun b hb => h b (List.mem_cons_of_mem a hb))
      (applyAction_exp_zero_of_no_set s a i (h a (List.mem_cons_self a rest)) hz)

/-! ### Script ordering: a handler run only consumes script entries -/

/-- Every script entry of `t` is a script entry of `s` (for the same timer). -/
def ScriptLe (t s : TimerSys) : Prop :=
  ∀ k, ∀ entry ∈ t.scripts k, entry ∈ s.scripts k

theorem ScriptLe.refl (s : TimerSys) : ScriptLe s s := fun _ _ h => h

theorem ScriptLe.trans {u t s : TimerSys} (h1 : ScriptLe u t) (h2 : ScriptLe t s) :
    ScriptLe u s := fun k e he => h2 k e (h1 k e he)

theorem ScriptLe_of_scripts_eq {t s : TimerSys} (h : t.scripts = s.scripts) : ScriptLe t s := by
  intro k e he; rw [h] at he; exact he

theorem popScript_scriptLe (s : TimerSys) (i : Nat) : ScriptLe (popScript s i).2 s := by
  intro k e he
  unfold popScript at he
  cases hsc : s.scripts i with
  | nil =>
    rw [hsc] at he
    exact he
  | cons acts rest =>
    rw [hsc] at he
    dsimp only at he
    by_cases hk : k = i
    · rw [if_pos hk] at he
      rw [hk, hsc]
      exact List.mem_cons_of_mem acts he
    · rw [if_neg hk] at he
      exact he

theorem ScriptsWF_mono {t s : TimerSys} (h : ScriptLe t s) (hs : ScriptsWF s) : ScriptsWF t :=
  fun k e he a ha => hs k e (h k e he) a ha

theorem Untouched_mono {t s : TimerSys} {i : Nat} (h : ScriptLe t s) (hs : Untouched s i) :
    Untouched t i := fun k e he a ha => hs k e (h k e he) a ha

theorem OwnOnly_mono {t s : TimerSys} {i : Nat} (h : ScriptLe t s) (hs : OwnOnly s i) :
    OwnOnly t i := fun k hk e he a ha => hs k hk e (h k e he) a ha

theorem NeverSet_mono {t s : TimerSys} {i : Nat} (h : ScriptLe t s) (hs : NeverSet s i) :
    NeverSet t i := fun k e he a ha => hs k e (h k e he) a ha

theorem popScript_acts (s : TimerSys) (i : Nat) :
    (popScript s i).1 = [] ∨ (popScript s i).1 ∈ s.scripts i := by
  unfold popScript
  cases hsc : s.scripts i with
  | nil => exact Or.inl rfl
  | cons acts rest => exact Or.inr (List.mem_cons_self acts rest)

/-! ### The handler scan -/

theorem findDue_none_iff (s : TimerSys) (now : Nat) :
    findDue s now = none ↔ ∀ i ∈ s.list, ¬(s.exp i ≠ 0 ∧ s.exp i ≤ now) := by
  unfold findDue
  rw [List.find?_eq_none]
  constructor
  · intro h i hi hc
    exact h i hi (by simpa using hc)
  · intro h i hi
    simp only [decide_eq_true_eq]
    exact h i hi

theorem findDue_some_due (s : TimerSys) (now i : Nat) (h : findDue s now = some i) :
    due s now i := by
  unfold findDue at h
  have hmem := List.mem_of_find?_eq_some h
  have hpred := List.find?_some h
  exact ⟨hmem, of_decide_eq_true hpred⟩

theorem findDue_isSome_of_due (s : TimerSys) (now i : Nat) (h : due s now i) :
    findDue s now ≠ none := by
  intro hn
  exact (findDue_none_iff s now).1 hn i h.1 h.2

theorem popScript_list (s : TimerSys) (i : Nat) : (popScript s i).2.list = s.list := by
  unfold popScript
  cases s.scripts i <;> rfl

theorem popScript_exp (s : TimerSys) (i : Nat) : (popScript s i).2.exp = s.exp := by
  unfold popScript
  cases s.scripts i <;> rfl

theorem cancel_not_mem (s : TimerSys) (i : Nat) (h : WF s) :
    i ∉ (libinput_timer_cancel s i).list := by
  by_cases hi : s.exp i = 0
  · rw [cancel_of_inactive s i hi]
    exact fun hc => (h.2.1 i).1 hc hi
  · rw [cancel_list_of_active s i hi]
    intro hc
    exact absurd ((h.1.mem_erase_iff.1 hc).1) (fun hne => hne rfl)

theorem fireOne_none_iff (s : TimerSys) (now : Nat) :
    fireOne s now = none ↔ findDue s now = none := by
  unfold fireOne
  cases findDue s now <;> simp

theorem fireOne_some_elim (s : TimerSys) (now : Nat) (e : TraceEntry)
    (h : fireOne s now = some e) :
    e.pre = s ∧ findDue s now = some e.id ∧
      e.acts = (popScript (libinput_timer_cancel s e.id) e.id).1 := by
  unfold fireOne at h
  cases hf : findDue s now with
  | none => rw [hf] at h; cases h
  | some i =>
    rw [hf] at h
    cases h
    exact ⟨rfl, rfl, rfl⟩

theorem cbState_scriptLe (e : TraceEntry) : ScriptLe (cbState e) e.pre := by
  unfold cbState
  exact ScriptLe.trans (popScript_scriptLe _ _)
    (ScriptLe_of_scripts_eq (cancel_scripts e.pre e.id))

theorem afterCb_scriptLe (e : TraceEntry) : ScriptLe (afterCb e) e.pre := by
  unfold afterCb
  exact ScriptLe.trans (ScriptLe_of_scripts_eq (runActions_scripts _ _)) (cbState_scriptLe e)

theorem cbState_exp_self (e : TraceEntry) : (cbState e).exp e.id = 0 := by
  unfold cbState
  rw [popScript_exp]
  exact cancel_exp_self e.pre e.id

theorem cbState_exp_other (e : TraceEntry) (i : Nat) (h : i ≠ e.id) :
    (cbState e).exp i = e.pre.exp i := by
  unfold cbState
  rw [popScript_exp]
  exact cancel_exp_other e.pre e.id i h

theorem cbState_not_mem (e : TraceEntry) (h : WF e.pre) : e.id ∉ (cbState e).list := by
  unfold cbState
  rw [popScript_list]
  exact cancel_not_mem e.pre e.id h

theorem cbState_mem_other (e : TraceEntry) (i : Nat) (h : i ≠ e.id) :
    (i ∈ (cbState e).list ↔ i ∈ e.pre.list) := by
  unfold cbState
  rw [popScript_list]
  exact cancel_mem_other e.pre e.id i h

theorem cbState_WF (e : TraceEntry) (h : WF e.pre) : WF (cbState e) := by
  unfold cbState
  have hc := WF_cancel e.pre e.id h
  obtain ⟨h1, h2, h3⟩ := hc
  exact ⟨by rw [popScript_list]; exact h1,
    fun i => by rw [popScript_list, popScript_exp]; exact h2 i,
    fun i => by rw [popScript_exp]; exact h3 i⟩

/-- The actions a `fireOne` consumes are one script entry of the fired timer
(or the empty no-op body of an exhausted script). -/
theorem fireOne_acts_mem (s : TimerSys) (now : Nat) (e : TraceEntry)
    (h : fireOne s now = some e) : e.acts = [] ∨ e.acts ∈ s.scripts e.id := by
  obtain ⟨hpre, hfd, hacts⟩ := fireOne_some_elim s now e h
  rw [hacts]
  rcases popScript_acts (libinput_timer_cancel s e.id) e.id with hc | hc
  · exact Or.inl hc
  · rw [cancel_scripts] at hc
    exact Or.inr hc

theorem fireOne_acts_ok (s : TimerSys) (now : Nat) (e : TraceEntry)
    (h : fireOne s now = some e) (hsw : ScriptsWF s) : ∀ a ∈ e.acts, ActionOk a := by
  rcases fireOne_acts_mem s now e h with hc | hc
  · rw [hc]; intro a ha; cases ha
  · exact hsw e.id e.acts hc

theorem afterCb_WF (s : TimerSys) (now : Nat) (e : TraceEntry)
    (h : fireOne s now = some e) (hwf : WF s) (hsw : ScriptsWF s) : WF (afterCb e) := by
  obtain ⟨hpre, -, -⟩ := fireOne_some_elim s now e h
  unfold afterCb
  exact runActions_WF _ _ (cbState_WF e (hpre ▸ hwf)) (fireOne_acts_ok s now e h hsw)

theorem handler_succ_of_none (f : Nat) (s : TimerSys) (now : Nat)
    (h : fireOne s now = none) :
    libinput_timer_handler (f + 1) s now = some (s, []) := by
  rw [libinput_timer_handler, h]

theorem handler_succ_of_some (f : Nat) (s : TimerSys) (now : Nat) (e : TraceEntry)
    (h : fireOne s now = some e) :
    libinput_timer_handler (f + 1) s now =
      match libinput_timer_handler f (afterCb e) now with
      | none => none
      | some (s2, tr) => some (s2, e :: tr) := by
  rw [libinput_timer_handler, h]

/-- Unfolding lemma for one step of the handler's `restart` loop. -/
theorem handler_spine (f : Nat) (s : TimerSys) (now : Nat) (s2 : TimerSys)
    (tr : List TraceEntry)
    (h : libinput_timer_handler (f + 1) s now = some (s2, tr)) :
    (findDue s now = none ∧ s2 = s ∧ tr = []) ∨
    ∃ e tr2, fireOne s now = some e ∧ tr = e :: tr2 ∧
      libinput_timer_handler f (afterCb e) now = some (s2, tr2) := by
  cases hf : fireOne s now with
  | none =>
    rw [handler_succ_of_none f s now hf] at h
    simp only [Option.some.injEq, Prod.mk.injEq] at h
    exact Or.inl ⟨(fireOne_none_iff s now).1 hf, h.1.symm, h.2.symm⟩
  | some e =>
    rw [handler_succ_of_some f s now e hf] at h
    cases hr : libinput_timer_handler f (afterCb e) now with
    | none => rw [hr] at h; cases h
    | some p =>
      obtain ⟨ps, ptr⟩ := p
      rw [hr] at h
      simp only [Option.some.injEq, Prod.mk.injEq] at h
      exact Or.inr ⟨e, ptr, rfl, h.2.symm, by rw [hr, h.1]⟩

/-- A completed handler run returns only when a full scan finds no due timer. -/
theorem handler_final_no_due (f : Nat) :
    ∀ (s : TimerSys) (now : Nat) (s2 : TimerSys) (tr : List TraceEntry),
    libinput_timer_handler f s now = some (s2, tr) → ∀ i, ¬ due s2 now i := by
  induction f with
  | zero => intro s now s2 tr h; cases h
  | succ f ih =>
    intro s now s2 tr h i
    rcases handler_spine f s now s2 tr h with ⟨hfd, hs, -⟩ | ⟨e, tr2, -, -, hrec⟩
    · subst hs
      intro hd
      exact (findDue_none_iff s2 now).1 hfd i hd.1 hd.2
    · exact ih (afterCb e) now s2 tr2 hrec i

/-- A completed handler run preserves well-formedness and only consumes script
entries. -/
theorem handler_preserves (f : Nat) :
    ∀ (s : TimerSys) (now : Nat) (s2 : TimerSys) (tr : List TraceEntry),
    WF s → ScriptsWF s → libinput_timer_handler f s now = some (s2, tr) →
    WF s2 ∧ ScriptsWF s2 ∧ ScriptLe s2 s := by
  induction f with
  | zero => intro s now s2 tr _ _ h; cases h
  | succ f ih =>
    intro s now s2 tr hwf hsw h
    rcases handler_spine f s now s2 tr h with ⟨-, hs, -⟩ | ⟨e, tr2, hf1, -, hrec⟩
    · subst hs; exact ⟨hwf, hsw, ScriptLe.refl s2⟩
    · obtain ⟨hpre, -, -⟩ := fireOne_some_elim s now e hf1
      have hwf2 : WF (afterCb e) := afterCb_WF s now e hf1 hwf hsw
      have hle : ScriptLe (afterCb e) s := hpre ▸ afterCb_scriptLe e
      have hsw2 : ScriptsWF (afterCb e) := ScriptsWF_mono hle hsw
      obtain ⟨h1, h2, h3⟩ := ih (afterCb e) now s2 tr2 hwf2 hsw2 hrec
      exact ⟨h1, h2, h3.trans hle⟩

/-- If only timer `i`'s own callback may touch `i`, the actions of a fired
sibling `e.id ≠ i` leave `i`'s scheduling state exactly unchanged. -/
theorem afterCb_untouched (s : TimerSys) (now : Nat) (e : TraceEntry) (i : Nat)
    (hf : fireOne s now = some e) (hown : OwnOnly s i) (hne : e.id ≠ i) :
    (afterCb e).exp i = s.exp i ∧ (i ∈ (afterCb e).list ↔ i ∈ s.list) := by
  obtain ⟨hpre, -, -⟩ := fireOne_some_elim s now e hf
  have hacts : ∀ a ∈ e.acts, ¬ touches a i := by
    rcases fireOne_acts_mem s now e hf with hc | hc
    · rw [hc]; intro a ha; cases ha
    · exact hown e.id hne e.acts hc
  have hexp : (cbState e).exp i = s.exp i := by
    rw [cbState_exp_other e i (fun hc => hne hc.symm), hpre]
  have hmem : (i ∈ (cbState e).list ↔ i ∈ s.list) := by
    rw [cbState_mem_other e i (fun hc => hne hc.symm), hpre]
  constructor
  · rw [afterCb, runActions_exp_untouched (cbState e) e.acts i hacts, hexp]
  · rw [afterCb, runActions_mem_untouched (cbState e) e.acts i hacts, hmem]

/-- Completeness: a timer that only its own callback may touch, and that is due
when a handler step begins, fires during the remaining run. -/
theorem handler_fires_due (f : Nat) :
    ∀ (s : TimerSys) (now : Nat) (s2 : TimerSys) (tr : List TraceEntry) (i : Nat),
    WF s → ScriptsWF s → OwnOnly s i → due s now i →
    libinput_timer_handler f s now = some (s2, tr) → i ∈ tr.map TraceEntry.id := by
  induction f with
  | zero => intro s now s2 tr i _ _ _ _ h; cases h
  | succ f ih =>
    intro s now s2 tr i hwf hsw hown hdue h
    rcases handler_spine f s now s2 tr h with ⟨hfd, -, -⟩ | ⟨e, tr2, hf1, htr, hrec⟩
    · exact absurd hfd (findDue_isSome_of_due s now i hdue)
    · subst htr
      by_cases hei : e.id = i
      · simp [hei]
      · have hpres := afterCb_untouched s now e i hf1 hown hei
        have hdue2 : due (afterCb e) now i :=
          ⟨hpres.2.2 hdue.1, by rw [hpres.1]; exact hdue.2⟩
        obtain ⟨hpre, -, -⟩ := fireOne_some_elim s now e hf1
        have hle : ScriptLe (afterCb e) s := hpre ▸ afterCb_scriptLe e
        have hmem := ih (afterCb e) now s2 tr2 i (afterCb_WF s now e hf1 hwf hsw)
          (ScriptsWF_mono hle hsw) (OwnOnly_mono hle hown) hdue2 hrec
        simp only [List.map_cons, List.mem_cons]
        exact Or.inr hmem

/-- A timer that is inactive and that no callback ever re-arms never fires. -/
theorem handler_no_fire_inactive (f : Nat) :
    ∀ (s : TimerSys) (now : Nat) (s2 : TimerSys) (tr : List TraceEntry) (i : Nat),
    NeverSet s i → s.exp i = 0 →
    libinput_timer_handler f s now = some (s2, tr) → i ∉ tr.map TraceEntry.id := by
  induction f with
  | zero => intro s now s2 tr i _ _ h; cases h
  | succ f ih =>
    intro s now s2 tr i hns hz h
    rcases handler_spine f s now s2 tr h with ⟨-, -, htr⟩ | ⟨e, tr2, hf1, htr, hrec⟩
    · rw [htr]; intro hc; cases hc
    · subst htr
      obtain ⟨hpre, hfd, -⟩ := fireOne_some_elim s now e hf1
      have hdue := findDue_some_due s now e.id hfd
      have hei : e.id ≠ i := fun hc => hdue.2.1 (hc ▸ hz)
      have hz2 : (afterCb e).exp i = 0 := by
        have hcb : (cbState e).exp i = s.exp i := by
          rw [cbState_exp_other e i (fun hc => hei hc.symm), hpre]
        have hacts : ∀ a ∈ e.acts, ∀ e2, a ≠ .set i e2 := by
          rcases fireOne_acts_mem s now e hf1 with hc | hc
          · rw [hc]; intro a ha; cases ha
          · intro a ha e2 hset
            have := hns e.id e.acts hc a ha e2
            exact this hset
        rw [afterCb]
        exact runActions_exp_zero_of_no_set (cbState e) e.acts i hacts (hcb.trans hz)
      have hle : ScriptLe (afterCb e) s := hpre ▸ afterCb_scriptLe e
      have hni := ih (afterCb e) now s2 tr2 i (NeverSet_mono hle hns) hz2 hrec
      simp only [List.map_cons, List.mem_cons]
      rintro (hc | hc)
      · exact hei hc.symm
      · exact hni hc

/-- A timer no callback ever touches fires exactly once if due at entry, and
never otherwise. -/
theorem handler_count_untouched (f : Nat) :
    ∀ (s : TimerSys) (now : Nat) (s2 : TimerSys) (tr : List TraceEntry) (i : Nat),
    WF s → ScriptsWF s → Untouched s i →
    libinput_timer_handler f s now = some (s2, tr) →
    (tr.map TraceEntry.id).count i = if due s now i then 1 else 0 := by
  induction f with
  | zero => intro s now s2 tr i _ _ _ h; cases h
  | succ f ih =>
    intro s now s2 tr i hwf hsw hunt h
    have hown : OwnOnly s i := fun k _ entry he a ha => hunt k entry he a ha
    have hns : NeverSet s i := by
      intro k entry he a ha e2 hset
      exact hunt k entry he a ha (by rw [hset]; exact rfl)
    rcases handler_spine f s now s2 tr h with ⟨hfd, -, htr⟩ | ⟨e, tr2, hf1, htr, hrec⟩
    · rw [htr]
      have : ¬ due s now i := fun hd => (findDue_isSome_of_due s now i hd) hfd
      simp [this]
    · subst htr
      obtain ⟨hpre, hfd, -⟩ := fireOne_some_elim s now e hf1
      have hle : ScriptLe (afterCb e) s := hpre ▸ afterCb_scriptLe e
      by_cases hei : e.id = i
      · subst hei
        have hdue : due s now e.id := findDue_some_due s now e.id hfd
        have hz2 : (afterCb e).exp e.id = 0 := by
          have hacts : ∀ a ∈ e.acts, ∀ e2, a ≠ .set e.id e2 := by
            rcases fireOne_acts_mem s now e hf1 with hc | hc
            · rw [hc]; intro a ha; cases ha
            · intro a ha e2 hset
              exact hunt e.id e.acts hc a ha (by rw [hset]; exact rfl)
          rw [afterCb]
          exact runActions_exp_zero_of_no_set (cbState e) e.acts e.id hacts
            (cbState_exp_self e)
        have hni := handler_no_fire_inactive f (afterCb e) now s2 tr2 e.id
          (NeverSet_mono hle hns) hz2 hrec
        simp only [List.map_cons]
        rw [List.count_cons_self, List.count_eq_zero.2 hni, if_pos hdue]
      · have hpres := afterCb_untouched s now e i hf1 hown hei
        have hdueiff : due (afterCb e) now i ↔ due s now i := by
          unfold due
          rw [hpres.1, hpres.2]
        have hcnt := ih (afterCb e) now s2 tr2 i (afterCb_WF s now e hf1 hwf hsw)
          (ScriptsWF_mono hle hsw) (Untouched_mono hle hunt) hrec
        simp only [List.map_cons]
        rw [List.count_cons_of_ne (fun hc => hei hc.symm), hcnt]
        by_cases hd : due s now i
        · rw [if_pos (hdueiff.2 hd), if_pos hd]
        · rw [if_neg (fun hc => hd (hdueiff.1 hc)), if_neg hd]

/-- Every recorded callback invocation fired a timer that was, at that moment,
linked with a non-zero expiry ≤ `now`, found by a scan from the head of the
list, and the callback ran only after the handler cancelled it (expiry zeroed,
unlinked). -/
theorem handler_trace_shape (f : Nat) :
    ∀ (s : TimerSys) (now : Nat) (s2 : TimerSys) (tr : List TraceEntry),
    WF s → ScriptsWF s → libinput_timer_handler f s now = some (s2, tr) →
    ∀ e ∈ tr, due e.pre now e.id ∧ findDue e.pre now = some e.id ∧
      (cbState e).exp e.id = 0 ∧ e.id ∉ (cbState e).list := by
  induction f with
  | zero => intro s now s2 tr _ _ h; cases h
  | succ f ih =>
    intro s now s2 tr hwf hsw h e2 he2
    rcases handler_spine f s now s2 tr h with ⟨-, -, htr⟩ | ⟨e, tr2, hf1, htr, hrec⟩
    · rw [htr] at he2; cases he2
    · subst htr
      obtain ⟨hpre, hfd, -⟩ := fireOne_some_elim s now e hf1
      rcases List.mem_cons.1 he2 with hc | hc
      · subst hc
        refine ⟨hpre ▸ findDue_some_due s now e2.id hfd, hpre ▸ hfd, cbState_exp_self e2, ?_⟩
        exact cbState_not_mem e2 (hpre ▸ hwf)
      · have hle : ScriptLe (afterCb e) s := hpre ▸ afterCb_scriptLe e
        exact ih (afterCb e) now s2 tr2 (afterCb_WF s now e hf1 hwf hsw)
          (ScriptsWF_mono hle hsw) hrec e2 hc

/-- A completed handler run is a `HandlerChain`: each invocation was found by a
fresh full scan of its pre-state, and the run ends with a scan finding nothing
due. -/
theorem handler_chain (f : Nat) :
    ∀ (s : TimerSys) (now : Nat) (s2 : TimerSys) (tr : List TraceEntry),
    libinput_timer_handler f s now = some (s2, tr) → HandlerChain now s tr s2 := by
  induction f with
  | zero => intro s now s2 tr h; cases h
  | succ f ih =>
    intro s now s2 tr h
    rcases handler_spine f s now s2 tr h with ⟨hfd, hs, htr⟩ | ⟨e, tr2, hf1, htr, hrec⟩
    · subst hs; subst htr; exact HandlerChain.nil s2 hfd
    · subst htr
      exact HandlerChain.cons s e tr2 s2 hf1 (ih (afterCb e) now s2 tr2 hrec)

/-- A timer whose own callback left it due again (re-armed to ≤ `now`) fires
again later in the same run. -/
theorem handler_rearm_fires_again (f : Nat) :
    ∀ (s : TimerSys) (now : Nat) (s2 : TimerSys) (tr : List TraceEntry) (i : Nat),
    WF s → ScriptsWF s → OwnOnly s i →
    libinput_timer_handler f s now = some (s2, tr) →
    ∀ (k : Nat) (hk : k < tr.length), (tr.get ⟨k, hk⟩).id = i →
      due (afterCb (tr.get ⟨k, hk⟩)) now i →
      ∃ (k2 : Nat) (hk2 : k2 < tr.length), k < k2 ∧ (tr.get ⟨k2, hk2⟩).id = i := by
  induction f with
  | zero => intro s now s2 tr i _ _ _ h; cases h
  | succ f ih =>
    intro s now s2 tr i hwf hsw hown h k hk hid hdue
    rcases handler_spine f s now s2 tr h with ⟨-, -, htr⟩ | ⟨e, tr2, hf1, htr, hrec⟩
    · subst htr; cases hk
    · subst htr
      obtain ⟨hpre, -, -⟩ := fireOne_some_elim s now e hf1
      have hle : ScriptLe (afterCb e) s := hpre ▸ afterCb_scriptLe e
      have hwf2 : WF (afterCb e) := afterCb_WF s now e hf1 hwf hsw
      have hsw2 : ScriptsWF (afterCb e) := ScriptsWF_mono hle hsw
      have hown2 : OwnOnly (afterCb e) i := OwnOnly_mono hle hown
      cases k with
      | zero =>
        have hmem : i ∈ tr2.map TraceEntry.id := by
          have : afterCb ((e :: tr2).get ⟨0, hk⟩) = afterCb e := rfl
          rw [this] at hdue
          exact handler_fires_due f (afterCb e) now s2 tr2 i hwf2 hsw2 hown2 hdue hrec
        rcases List.mem_map.1 hmem with ⟨e2, he2, hide⟩
        rcases List.mem_iff_get.1 he2 with ⟨n, hn⟩
        refine ⟨n.1 + 1, Nat.succ_lt_succ n.2, Nat.succ_pos n.1, ?_⟩
        have : (e :: tr2).get ⟨n.1 + 1, Nat.succ_lt_succ n.2⟩ = tr2.get n := rfl
        rw [this, hn, hide]
      | succ k1 =>
        have hk1 : k1 < tr2.length := Nat.lt_of_succ_lt_succ hk
        have hget : (e :: tr2).get ⟨k1 + 1, hk⟩ = tr2.get ⟨k1, hk1⟩ := rfl
        rw [hget] at hid hdue
        obtain ⟨k2, hk2, hlt, hid2⟩ :=
          ih (afterCb e) now s2 tr2 i hwf2 hsw2 hown2 hrec k1 hk1 hid hdue
        refine ⟨k2 + 1, Nat.succ_lt_succ hk2, Nat.succ_lt_succ hlt, ?_⟩
        have : (e :: tr2).get ⟨k2 + 1, Nat.succ_lt_succ hk2⟩ = tr2.get ⟨k2, hk2⟩ := rfl
        rw [this, hid2]

/-- A timer no callback ever re-arms fires at most once per handler run. -/
theorem handler_count_neverset (f : Nat) :
    ∀ (s : TimerSys) (now : Nat) (s2 : TimerSys) (tr : List TraceEntry) (i : Nat),
    NeverSet s i → libinput_timer_handler f s now = some (s2, tr) →
    (tr.map TraceEntry.id).count i ≤ 1 := by
  induction f with
  | zero => intro s now s2 tr i _ h; cases h
  | succ f ih =>
    intro s now s2 tr i hns h
    rcases handler_spine f s now s2 tr h with ⟨-, -, htr⟩ | ⟨e, tr2, hf1, htr, hrec⟩
    · rw [htr]; exact Nat.zero_le 1
    · subst htr
      obtain ⟨hpre, hfd, -⟩ := fireOne_some_elim s now e hf1
      have hle : ScriptLe (afterCb e) s := hpre ▸ afterCb_scriptLe e
      by_cases hei : e.id = i
      · subst hei
        have hz2 : (afterCb e).exp e.id = 0 := by
          have hacts : ∀ a ∈ e.acts, ∀ e2, a ≠ .set e.id e2 := by
            rcases fireOne_acts_mem s now e hf1 with hc | hc
            · rw [hc]; intro a ha; cases ha
            · intro a ha e2; exact hns e.id e.acts hc a ha e2
          rw [afterCb]
          exact runActions_exp_zero_of_no_set (cbState e) e.acts e.id hacts
            (cbState_exp_self e)
        have hni := handler_no_fire_inactive f (afterCb e) now s2 tr2 e.id
          (NeverSet_mono hle hns) hz2 hrec
        simp only [List.map_cons]
        rw [List.count_cons_self, List.count_eq_zero.2 hni]
      · simp only [List.map_cons]
        rw [List.count_cons_of_ne (fun hc => hei hc.symm)]
        exact ih (afterCb e) now s2 tr2 i (NeverSet_mono hle hns) hrec

/-! ## C1: dispatch semantics -/

/-- C1 (counterexample): "every timer ... whose expiry is ≤ now at entry fires
exactly once before the call returns" is false as stated: in
`cexCancelSibling` (timers 1 and 2 both due at `now = 10`), timer 1's callback
cancels its due sibling 2, and the dispatch returns having fired only timer 1 —
the due-at-entry timer 2 never fires. -/
theorem dispatch_cancelled_sibling_never_fires :
    due cexCancelSibling 10 2 ∧
    (libinput_timer_handler 3 cexCancelSibling 10).map
        (fun p => p.2.map TraceEntry.id) = some [1] ∧
    (2 : Nat) ∉ [1] := by
  refine ⟨by decide, by decide, by decide⟩

/-- C1 (amended): for every completed `libinput_timer_handler` run from a
well-formed state: (1) every callback invocation fires a timer that is, at
that moment, linked with non-zero expiry ≤ `now` (so no timer fires while its
expiry exceeds `now`), found by a scan of the whole list, and it is cancelled
first — by callback time its expiry is zeroed and it is unlinked; (2) the run
re-scans from the beginning of the collection after every callback; (3) a
timer touched by no callback fires exactly once if due at entry and never
otherwise; (4) a timer no callback re-arms fires at most once — in particular
a callback cancelling a different pending timer cannot double-fire it, the
cancelled sibling simply stops being due (it may not fire at all); (5) when
the call returns no active timer is due; (6) a timer that only its own
callback touches and whose callback re-arms it to an expiry ≤ `now` fires
again within the same call. -/
theorem dispatch_semantics (f : Nat) (s : TimerSys) (now : Nat) (s2 : TimerSys)
    (tr : List TraceEntry) (hwf : WF s) (hsw : ScriptsWF s)
    (h : libinput_timer_handler f s now = some (s2, tr)) :
    (∀ e ∈ tr, due e.pre now e.id ∧ findDue e.pre now = some e.id ∧
        (cbState e).exp e.id = 0 ∧ e.id ∉ (cbState e).list) ∧
    HandlerChain now s tr s2 ∧
    (∀ i, Untouched s i →
        (tr.map TraceEntry.id).count i = if due s now i then 1 else 0) ∧
    (∀ i, NeverSet s i → (tr.map TraceEntry.id).count i ≤ 1) ∧
    (∀ i, ¬ due s2 now i) ∧
    (∀ i, OwnOnly s i → ∀ (k : Nat) (hk : k < tr.length), (tr.get ⟨k, hk⟩).id = i →
        due (afterCb (tr.get ⟨k, hk⟩)) now i →
        ∃ (k2 : Nat) (hk2 : k2 < tr.length), k < k2 ∧ (tr.get ⟨k2, hk2⟩).id = i) := by
  refine ⟨handler_trace_shape f s now s2 tr hwf hsw h,
    handler_chain f s now s2 tr h,
    fun i hu => handler_count_untouched f s now s2 tr i hwf hsw hu h,
    fun i hn => handler_count_neverset f s now s2 tr i hn h,
    handler_final_no_due f s now s2 tr h,
    fun i ho k hk hid hdue =>
      handler_rearm_fires_again f s now s2 tr i hwf hsw ho h k hk hid hdue⟩

/-- The completed run of the scriptless two-due-timer state used as a witness. -/
def wRun : TimerSys × List TraceEntry :=
  (libinput_timer_handler 3 wPlainTwo 10).getD (wPlainTwo, [])

theorem WF_wPlainTwo : WF wPlainTwo := by
  refine ⟨by decide, fun i => ?_, fun i => ?_⟩
  · by_cases h1 : i = 1 <;> by_cases h2 : i = 2 <;> simp [wPlainTwo, h1, h2]
  · by_cases h1 : i = 1 <;> by_cases h2 : i = 2 <;> simp [wPlainTwo, h1, h2, U64MAX]

theorem ScriptsWF_wPlainTwo : ScriptsWF wPlainTwo := by
  intro k entry he
  cases he

/-- Witness for `dispatch_semantics`: the run of `wPlainTwo` at `now = 10`. -/
theorem dispatch_semantics_witness :
    (∀ e ∈ wRun.2, due e.pre 10 e.id ∧ findDue e.pre 10 = some e.id ∧
        (cbState e).exp e.id = 0 ∧ e.id ∉ (cbState e).list) ∧
    HandlerChain 10 wPlainTwo wRun.2 wRun.1 ∧
    (∀ i, Untouched wPlainTwo i →
        (wRun.2.map TraceEntry.id).count i = if due wPlainTwo 10 i then 1 else 0) ∧
    (∀ i, NeverSet wPlainTwo i → (wRun.2.map TraceEntry.id).count i ≤ 1) ∧
    (∀ i, ¬ due wRun.1 10 i) ∧
    (∀ i, OwnOnly wPlainTwo i → ∀ (k : Nat) (hk : k < wRun.2.length),
        (wRun.2.get ⟨k, hk⟩).id = i → due (afterCb (wRun.2.get ⟨k, hk⟩)) 10 i →
        ∃ (k2 : Nat) (hk2 : k2 < wRun.2.length), k < k2 ∧ (wRun.2.get ⟨k2, hk2⟩).id = i) :=
  dispatch_semantics 3 wPlainTwo 10 wRun.1 wRun.2 WF_wPlainTwo ScriptsWF_wPlainTwo rfl

/-! ## C2: the timerfd arming invariant -/

theorem minExpire_arm (s : TimerSys) :
    minExpire (libinput_timer_arm_timer_fd s) = minExpire s := rfl

theorem arm_establishes (s : TimerSys) :
    ArmOK (libinput_timer_arm_timer_fd s) ∧
      (libinput_timer_arm_timer_fd s).next_expiry = minExpire (libinput_timer_arm_timer_fd s) := by
  constructor
  · unfold ArmOK
    rw [arm_fd, minExpire_arm]
    by_cases h : minExpire s = U64MAX
    · rw [if_pos h, if_neg (fun hc => hc h)]
    · rw [if_neg h, if_pos h]
  · rw [arm_next_expiry, minExpire_arm]

theorem set_flags_establishes (s : TimerSys) (i e : Nat) :
    ArmOK (libinput_timer_set_flags s i e) ∧
      (libinput_timer_set_flags s i e).next_expiry = minExpire (libinput_timer_set_flags s i e) := by
  unfold libinput_timer_set_flags
  exact arm_establishes _

theorem cancel_preserves_armOK (s : TimerSys) (i : Nat)
    (h : ArmOK s ∧ s.next_expiry = minExpire s ∨ s.list = [] ∧ s.next_expiry = 0 ∧ s.fd = none) :
    ArmOK (libinput_timer_cancel s i) ∧
      (libinput_timer_cancel s i).next_expiry = minExpire (libinput_timer_cancel s i) ∨
      (libinput_timer_cancel s i).list = [] ∧ (libinput_timer_cancel s i).next_expiry = 0 ∧
        (libinput_timer_cancel s i).fd = none := by
  by_cases hi : s.exp i = 0
  · rw [cancel_of_inactive s i hi]
    exact h
  · left
    unfold libinput_timer_cancel
    rw [if_neg hi]
    exact arm_establishes _

/-- C2 (counterexample): "disarmed if and only if no timer is active" is false
as stated: `libinput_timer_set(timer, UINT64_MAX)` passes the non-zero assert
and links the timer, but `libinput_timer_arm_timer_fd`'s minimum scan cannot
distinguish the timer's `UINT64_MAX` expiry from its "no expiry" start value,
so the zero `itimerspec` disarms the timerfd while a timer is active. -/
theorem timerfd_disarmed_with_active_timer :
    (applyOps (initTimerSys (fun _ => [])) [TimerOp.set 0 U64MAX]).list = [0] ∧
    (applyOps (initTimerSys (fun _ => [])) [TimerOp.set 0 U64MAX]).fd = none ∧
    (applyOps (initTimerSys (fun _ => [])) [TimerOp.set 0 U64MAX]).exp 0 = U64MAX := by
  refine ⟨rfl, rfl, rfl⟩

/-- C2 (amended): after every sequence of `set`/`cancel` calls on independent
timers (each `set` with a non-zero `uint64_t` expiry, per the assert), the
state is well-formed, the timerfd is armed to exactly the minimum expiry over
all active timers whenever that minimum differs from the `UINT64_MAX`
sentinel, and is disarmed otherwise — in particular whenever no timer is
active, but also in the degenerate case of a minimum expiry equal to
`UINT64_MAX`; the cached next-expiry equals that minimum (`UINT64_MAX` when no
timer is active), except that the zero-initialized cache persists while no
arming has yet occurred. -/
theorem timerfd_armed_to_minimum (ops : List TimerOp) (scripts : Nat → List (List Action))
    (hops : OpsWF ops) :
    WF (applyOps (initTimerSys scripts) ops) ∧
    (minExpire (applyOps (initTimerSys scripts) ops) ≠ U64MAX →
      (applyOps (initTimerSys scripts) ops).fd =
        some (minExpire (applyOps (initTimerSys scripts) ops))) ∧
    (minExpire (applyOps (initTimerSys scripts) ops) = U64MAX →
      (applyOps (initTimerSys scripts) ops).fd = none) ∧
    ((applyOps (initTimerSys scripts) ops).list = [] →
      (applyOps (initTimerSys scripts) ops).fd = none) ∧
    (∀ i ∈ (applyOps (initTimerSys scripts) ops).list,
      minExpire (applyOps (initTimerSys scripts) ops) ≤
        (applyOps (initTimerSys scripts) ops).exp i) ∧
    CacheOK (applyOps (initTimerSys scripts) ops) := by
  have main : ∀ (ops : List TimerOp) (s : TimerSys), OpsWF ops →
      WF s → (ArmOK s ∧ s.next_expiry = minExpire s ∨
        s.list = [] ∧ s.next_expiry = 0 ∧ s.fd = none) →
      WF (applyOps s ops) ∧
        (ArmOK (applyOps s ops) ∧ (applyOps s ops).next_expiry = minExpire (applyOps s ops) ∨
          (applyOps s ops).list = [] ∧ (applyOps s ops).next_expiry = 0 ∧
            (applyOps s ops).fd = none) := by
    intro ops
    induction ops with
    | nil => intro s _ hwf hinv; exact ⟨hwf, hinv⟩
    | cons op rest ih =>
      intro s hops hwf hinv
      have hop := hops op (List.mem_cons_self op rest)
      have hrest : OpsWF rest := fun o ho => hops o (List.mem_cons_of_mem op ho)
      simp only [applyOps, List.foldl_cons] at *
      cases op with
      | set i e =>
        exact ih (applyOp s (.set i e)) hrest
          (WF_set_flags s i e hwf hop.1 hop.2)
          (Or.inl (set_flags_establishes s i e))
      | cancel i =>
        exact ih (applyOp s (.cancel i)) hrest
          (WF_cancel s i hwf)
          (cancel_preserves_armOK s i hinv)
  have hwf0 : WF (initTimerSys scripts) := by
    refine ⟨List.nodup_nil, fun i => ?_, fun i => ?_⟩
    · simp [initTimerSys]
    · simp [initTimerSys]
  have hinv0 : ArmOK (initTimerSys scripts) ∧
      (initTimerSys scripts).next_expiry = minExpire (initTimerSys scripts) ∨
      (initTimerSys scripts).list = [] ∧ (initTimerSys scripts).next_expiry = 0 ∧
        (initTimerSys scripts).fd = none :=
    Or.inr ⟨rfl, rfl, rfl⟩
  obtain ⟨hwf, hinv⟩ := main ops (initTimerSys scripts) hops hwf0 hinv0
  have hfd : (applyOps (initTimerSys scripts) ops).fd =
      if minExpire (applyOps (initTimerSys scripts) ops) = U64MAX then none
      else some (minExpire (applyOps (initTimerSys scripts) ops)) := by
    rcases hinv with ⟨harm, -⟩ | ⟨hnil, -, hfd⟩
    · exact harm
    · rw [hfd, if_pos]
      exact minExpire_nil _ hnil
  refine ⟨hwf, ?_, ?_, ?_, ?_, ?_⟩
  · intro hne
    rw [hfd, if_neg hne]
  · intro heq
    rw [hfd, if_pos heq]
  · intro hnil
    rw [hfd, if_pos (minExpire_nil _ hnil)]
  · exact fun i hi => minExpire_le _ i hi
  · rcases hinv with ⟨-, hc⟩ | ⟨hnil, hc, -⟩
    · exact Or.inl hc
    · exact Or.inr ⟨hnil, hc⟩

/-- Witness for `timerfd_armed_to_minimum`: set timers 1 ↦ 500, 2 ↦ 300, then
cancel 2; the fd must be armed to 500. -/
theorem timerfd_armed_to_minimum_witness :
    WF (applyOps (initTimerSys (fun _ => []))
        [TimerOp.set 1 500, TimerOp.set 2 300, TimerOp.cancel 2]) ∧
    (minExpire (applyOps (initTimerSys (fun _ => []))
        [TimerOp.set 1 500, TimerOp.set 2 300, TimerOp.cancel 2]) ≠ U64MAX →
      (applyOps (initTimerSys (fun _ => []))
        [TimerOp.set 1 500, TimerOp.set 2 300, TimerOp.cancel 2]).fd =
        some (minExpire (applyOps (initTimerSys (fun _ => []))
          [TimerOp.set 1 500, TimerOp.set 2 300, TimerOp.cancel 2]))) ∧
    (minExpire (applyOps (initTimerSys (fun _ => []))
        [TimerOp.set 1 500, TimerOp.set 2 300, TimerOp.cancel 2]) = U64MAX →
      (applyOps (initTimerSys (fun _ => []))
        [TimerOp.set 1 500, TimerOp.set 2 300, TimerOp.cancel 2]).fd = none) ∧
    ((applyOps (initTimerSys (fun _ => []))
        [TimerOp.set 1 500, TimerOp.set 2 300, TimerOp.cancel 2]).list = [] →
      (applyOps (initTimerSys (fun _ => []))
        [TimerOp.set 1 500, TimerOp.set 2 300, TimerOp.cancel 2]).fd = none) ∧
    (∀ i ∈ (applyOps (initTimerSys (fun _ => []))
        [TimerOp.set 1 500, TimerOp.set 2 300, TimerOp.cancel 2]).list,
      minExpire (applyOps (initTimerSys (fun _ => []))
          [TimerOp.set 1 500, TimerOp.set 2 300, TimerOp.cancel 2]) ≤
        (applyOps (initTimerSys (fun _ => []))
          [TimerOp.set 1 500, TimerOp.set 2 300, TimerOp.cancel 2]).exp i) ∧
    CacheOK (applyOps (initTimerSys (fun _ => []))
        [TimerOp.set 1 500, TimerOp.set 2 300, TimerOp.cancel 2]) :=
  timerfd_armed_to_minimum [TimerOp.set 1 500, TimerOp.set 2 300, TimerOp.cancel 2]
    (fun _ => [])
    (by
      intro op hop
      simp only [List.mem_cons, List.not_mem_nil, or_false] at hop
      rcases hop with rfl | rfl | rfl
      · exact ⟨by decide, by decide⟩
      · exact ⟨by decide, by decide⟩
      · trivial)

/-! ## C3: active-collection membership iff non-zero expiry -/

/-- C3 (confirmed): the membership invariant "linked iff expiry non-zero"
(with a duplicate-free list) is preserved by `libinput_timer_set_flags` (for
the asserted non-zero expiry), `libinput_timer_cancel` and every completed
`libinput_timer_handler` run; setting an inactive timer links it exactly once
at the head; re-setting an active timer leaves the list unchanged (no
duplicate insertion) and updates the expiry in place; cancelling unlinks and
zeroes the expiry. -/
theorem active_iff_nonzero_expiry :
    (∀ (s : TimerSys) (i e : Nat), WF s → e ≠ 0 → e ≤ U64MAX →
        WF (libinput_timer_set_flags s i e)) ∧
    (∀ (s : TimerSys) (i : Nat), WF s → WF (libinput_timer_cancel s i)) ∧
    (∀ (f : Nat) (s : TimerSys) (now : Nat) (s2 : TimerSys) (tr : List TraceEntry),
        WF s → ScriptsWF s → libinput_timer_handler f s now = some (s2, tr) → WF s2) ∧
    (∀ (s : TimerSys) (i e : Nat), WF s → s.exp i = 0 →
        (libinput_timer_set_flags s i e).list = i :: s.list ∧
        (libinput_timer_set_flags s i e).list.count i = 1 ∧
        (libinput_timer_set_flags s i e).exp i = e) ∧
    (∀ (s : TimerSys) (i e : Nat), s.exp i ≠ 0 →
        (libinput_timer_set_flags s i e).list = s.list ∧
        (libinput_timer_set_flags s i e).exp i = e) ∧
    (∀ (s : TimerSys) (i : Nat), WF s →
        (libinput_timer_cancel s i).exp i = 0 ∧ i ∉ (libinput_timer_cancel s i).list) := by
  refine ⟨fun s i e hwf he hle => WF_set_flags s i e hwf he hle,
    fun s i hwf => WF_cancel s i hwf,
    fun f s now s2 tr hwf hsw h => (handler_preserves f s now s2 tr hwf hsw h).1,
    fun s i e hwf hz => ?_, fun s i e ha => ?_, fun s i hwf => ?_⟩
  · have hnm : i ∉ s.list := fun hc => (hwf.2.1 i).1 hc hz
    refine ⟨set_flags_list_of_inactive s i e hz, ?_, by rw [set_flags_exp]; simp⟩
    rw [set_flags_list_of_inactive s i e hz, List.count_cons_self,
      List.count_eq_zero.2 hnm]
  · exact ⟨set_flags_list_of_active s i e ha, by rw [set_flags_exp]; simp⟩
  · exact ⟨cancel_exp_self s i, cancel_not_mem s i hwf⟩

/-- Witness for `active_iff_nonzero_expiry`, exercised on `wPlainTwo`
(set inactive timer 3, re-set active timer 1, cancel timer 2, and a completed
dispatch). -/
theorem active_iff_nonzero_expiry_witness :
    WF (libinput_timer_set_flags wPlainTwo 3 42) ∧
    (libinput_timer_set_flags wPlainTwo 3 42).list = 3 :: wPlainTwo.list ∧
    (libinput_timer_set_flags wPlainTwo 3 42).list.count 3 = 1 ∧
    (libinput_timer_set_flags wPlainTwo 1 99).list = wPlainTwo.list ∧
    (libinput_timer_cancel wPlainTwo 2).exp 2 = 0 ∧
    2 ∉ (libinput_timer_cancel wPlainTwo 2).list ∧
    WF wRun.1 :=
  ⟨active_iff_nonzero_expiry.1 wPlainTwo 3 42 WF_wPlainTwo (by decide) (by decide),
    (active_iff_nonzero_expiry.2.2.2.1 wPlainTwo 3 42 WF_wPlainTwo (by decide)).1,
    (active_iff_nonzero_expiry.2.2.2.1 wPlainTwo 3 42 WF_wPlainTwo (by decide)).2.1,
    (active_iff_nonzero_expiry.2.2.2.2.1 wPlainTwo 1 99 (by decide)).1,
    (active_iff_nonzero_expiry.2.2.2.2.2 wPlainTwo 2 WF_wPlainTwo).1,
    (active_iff_nonzero_expiry.2.2.2.2.2 wPlainTwo 2 WF_wPlainTwo).2,
    active_iff_nonzero_expiry.2.2.1 3 wPlainTwo 10 wRun.1 wRun.2 WF_wPlainTwo
      ScriptsWF_wPlainTwo rfl⟩

/-! ## C4: flush refines dispatch -/

/-- C4 (confirmed): from any reachable state (well-formed, accurate cache),
`libinput_timer_flush(now)` produces exactly the same result — same final
state, same callback invocations — as running the `libinput_timer_handler`
dispatch logic at the same `now`; and when `now` precedes the cached next
expiry or the cache holds the zero no-timer sentinel, it is a no-op that
invokes no callback and leaves the state unchanged. -/
theorem flush_equals_dispatch (f : Nat) (s : TimerSys) (now : Nat)
    (hwf : WF s) (hc : CacheOK s) (hf : 1 ≤ f) :
    libinput_timer_flush f s now = libinput_timer_handler f s now ∧
    (s.next_expiry = 0 ∨ now < s.next_expiry →
      libinput_timer_flush f s now = some (s, [])) := by
  have hnone : (s.next_expiry = 0 ∨ now < s.next_expiry) → findDue s now = none := by
    intro hcond
    rcases hc with hcache | ⟨hnil, -⟩
    · rcases hcond with hzero | hlt
      · exfalso
        rw [hcache] at hzero
        rcases minExpire_cases s with hmx | ⟨i, hi, hmx⟩
        · rw [hzero] at hmx; exact absurd hmx.symm (by decide)
        · rw [hzero] at hmx
          exact (hwf.2.1 i).1 hi hmx.symm
      · rw [hcache] at hlt
        apply (findDue_none_iff s now).2
        intro i hi hcon
        exact absurd hcon.2 (Nat.not_le_of_lt (Nat.lt_of_lt_of_le hlt (minExpire_le s i hi)))
    · apply (findDue_none_iff s now).2
      intro i hi
      rw [hnil] at hi
      cases hi
  constructor
  · unfold libinput_timer_flush
    by_cases hcond : s.next_expiry = 0 ∨ now < s.next_expiry
    · rw [if_pos hcond]
      obtain ⟨f2, rfl⟩ : ∃ f2, f = f2 + 1 :=
        ⟨f - 1, (Nat.succ_pred_eq_of_pos hf).symm⟩
      rw [handler_succ_of_none f2 s now ((fireOne_none_iff s now).2 (hnone hcond))]
    · rw [if_neg hcond]
  · intro hcond
    unfold libinput_timer_flush
    rw [if_pos hcond]

/-- Witness for `flush_equals_dispatch` at `wPlainTwo`, `now = 3` (before the
cached next expiry 5): the flush is a no-op equal to the dispatch. -/
theorem flush_equals_dispatch_witness :
    (libinput_timer_flush 1 wPlainTwo 3 = libinput_timer_handler 1 wPlainTwo 3 ∧
      (wPlainTwo.next_expiry = 0 ∨ 3 < wPlainTwo.next_expiry →
        libinput_timer_flush 1 wPlainTwo 3 = some (wPlainTwo, []))) ∧
    (3 : Nat) < wPlainTwo.next_expiry :=
  ⟨flush_equals_dispatch 1 wPlainTwo 3 WF_wPlainTwo (Or.inl rfl) (by decide), by decide⟩

/-! ## Edge-motion FSM: helper lemmas -/

theorem inject_fields (fsm : EdgeMotionFsm) (d : Device) (t : Nat) :
    (inject_accumulated_motion fsm d t).1.current_state = fsm.current_state ∧
    (inject_accumulated_motion fsm d t).1.tp = fsm.tp ∧
    (inject_accumulated_motion fsm d t).1.timer_expire = fsm.timer_expire ∧
    (inject_accumulated_motion fsm d t).1.current_edge = fsm.current_edge := by
  simp only [inject_accumulated_motion]
  split_ifs <;> exact ⟨rfl, rfl, rfl, rfl⟩

theorem inject_baseline (fsm : EdgeMotionFsm) (d : Device) (t : Nat)
    (h : fsm.last_motion_time = 0) :
    inject_accumulated_motion fsm d t = ({ fsm with last_motion_time := t }, []) := by
  unfold inject_accumulated_motion
  rw [if_pos h]

theorem inject_below_threshold (fsm : EdgeMotionFsm) (d : Device) (t : Nat)
    (h : fsm.last_motion_time ≠ 0)
    (hd : EDGE_MOTION_CONFIG_SPEED_MM_S * (((t - fsm.last_motion_time : Nat) : ℚ) / 1000000)
      < 1 / 1000) :
    inject_accumulated_motion fsm d t = (fsm, []) := by
  unfold inject_accumulated_motion
  rw [if_neg h, if_pos hd]

theorem inject_notifies (fsm : EdgeMotionFsm) (d : Device) (t : Nat)
    (h : fsm.last_motion_time ≠ 0)
    (hd : ¬ EDGE_MOTION_CONFIG_SPEED_MM_S * (((t - fsm.last_motion_time : Nat) : ℚ) / 1000000)
      < 1 / 1000) :
    (inject_accumulated_motion fsm d t).2.length = 1 ∧
    (inject_accumulated_motion fsm d t).1.last_motion_time = t ∧
    (inject_accumulated_motion fsm d t).1.continuous_motion_count =
      fsm.continuous_motion_count + 1 ∧
    (∀ m ∈ (inject_accumulated_motion fsm d t).2, m.dev = d.id ∧ m.time = t) := by
  unfold inject_accumulated_motion
  rw [if_neg h, if_neg hd]
  refine ⟨rfl, rfl, rfl, ?_⟩
  intro m hm
  rcases List.mem_singleton.1 hm with rfl
  exact ⟨rfl, rfl⟩

theorem ht_not_edge (fsm : EdgeMotionFsm) (now : Nat)
    (h : fsm.current_state ≠ EMState.edge_motion) :
    tp_edge_motion_handle_timeout fsm now = (fsm, []) := by
  unfold tp_edge_motion_handle_timeout
  rw [if_pos h]

theorem ht_edge (fsm : EdgeMotionFsm) (now : Nat) (d : Device)
    (h1 : fsm.current_state = EMState.edge_motion) (h2 : fsm.tp = some d) :
    tp_edge_motion_handle_timeout fsm now =
      ({ (inject_accumulated_motion fsm d now).1 with
          timer_expire := now + EDGE_MOTION_CONFIG_MIN_INTERVAL_US },
        (inject_accumulated_motion fsm d now).2) := by
  unfold tp_edge_motion_handle_timeout
  rw [if_neg (not_not_intro h1), h2]

theorem ht_fields (fsm : EdgeMotionFsm) (now : Nat) :
    (tp_edge_motion_handle_timeout fsm now).1.current_state = fsm.current_state ∧
    (tp_edge_motion_handle_timeout fsm now).1.tp = fsm.tp := by
  by_cases h1 : fsm.current_state = EMState.edge_motion
  · cases h2 : fsm.tp with
    | none =>
      unfold tp_edge_motion_handle_timeout
      rw [if_neg (not_not_intro h1), h2]
      exact ⟨rfl, h2⟩
    | some d =>
      rw [ht_edge fsm now d h1 h2]
      exact ⟨(inject_fields fsm d now).1, (inject_fields fsm d now).2.1.trans h2⟩
  · rw [ht_not_edge fsm now h1]
    exact ⟨rfl, rfl⟩

theorem ht_expire_armed (fsm : EdgeMotionFsm) (now : Nat) (d : Device)
    (h1 : fsm.current_state = EMState.edge_motion) (h2 : fsm.tp = some d) :
    (tp_edge_motion_handle_timeout fsm now).1.timer_expire =
      now + EDGE_MOTION_CONFIG_MIN_INTERVAL_US := by
  rw [ht_edge fsm now d h1 h2]

/-- Characterization of `tp_edge_motion_handle_drag_state`: the four exclusive
outcome shapes (transition to `IDLE`/`DRAG_ACTIVE`, transition into
`EDGE_MOTION`, in-state edge change, no change). -/
theorem hds_spec (fsm0 : EdgeMotionFsm) (tp : Device) (time : Nat) :
    ∀ fsm, fsm = (match fsm0.tp with
      | none => tp_edge_motion_init fsm0 tp
      | some _ => fsm0) →
    (next_state_of tp ≠ fsm.current_state ∧ next_state_of tp ≠ EMState.edge_motion ∧
      tp_edge_motion_handle_drag_state fsm0 tp time =
        ({ fsm with
            current_state := next_state_of tp
            current_edge := detected_edge_of tp (drag_active_of tp.tap_state)
            continuous_motion_count := 0
            timer_expire := 0 }, [], false)) ∨
    (next_state_of tp ≠ fsm.current_state ∧ next_state_of tp = EMState.edge_motion ∧
      tp_edge_motion_handle_drag_state fsm0 tp time =
        ((tp_edge_motion_handle_timeout
            { fsm with
              current_state := EMState.edge_motion
              current_edge := detected_edge_of tp (drag_active_of tp.tap_state)
              motion_dx := (calculate_motion_vector
                (detected_edge_of tp (drag_active_of tp.tap_state))).1
              motion_dy := (calculate_motion_vector
                (detected_edge_of tp (drag_active_of tp.tap_state))).2
              last_motion_time := time } time).1,
          (tp_edge_motion_handle_timeout
            { fsm with
              current_state := EMState.edge_motion
              current_edge := detected_edge_of tp (drag_active_of tp.tap_state)
              motion_dx := (calculate_motion_vector
                (detected_edge_of tp (drag_active_of tp.tap_state))).1
              motion_dy := (calculate_motion_vector
                (detected_edge_of tp (drag_active_of tp.tap_state))).2
              last_motion_time := time } time).2, true)) ∨
    (next_state_of tp = fsm.current_state ∧ fsm.current_state = EMState.edge_motion ∧
      detected_edge_of tp (drag_active_of tp.tap_state) ≠ fsm.current_edge ∧
      tp_edge_motion_handle_drag_state fsm0 tp time =
        ({ fsm with
            current_edge := detected_edge_of tp (drag_active_of tp.tap_state)
            motion_dx := (calculate_motion_vector
              (detected_edge_of tp (drag_active_of tp.tap_state))).1
            motion_dy := (calculate_motion_vector
              (detected_edge_of tp (drag_active_of tp.tap_state))).2 }, [], true)) ∨
    (next_state_of tp = fsm.current_state ∧
      ¬(fsm.current_state = EMState.edge_motion ∧
        detected_edge_of tp (drag_active_of tp.tap_state) ≠ fsm.current_edge) ∧
      tp_edge_motion_handle_drag_state fsm0 tp time =
        (fsm, [], decide (fsm.current_state = EMState.edge_motion))) := by
  intro fsm hfsm
  unfold tp_edge_motion_handle_drag_state
  rw [← hfsm]
  by_cases hch : next_state_of tp ≠ fsm.current_state
  · rw [if_pos hch]
    cases hns : next_state_of tp with
    | idle =>
      refine Or.inl ⟨hns ▸ hch, by decide, ?_⟩
      rfl
    | drag_active =>
      refine Or.inl ⟨hns ▸ hch, by decide, ?_⟩
      rfl
    | edge_motion =>
      refine Or.inr (Or.inl ⟨hns ▸ hch, rfl, ?_⟩)
      rfl
  · rw [if_neg hch]
    rw [not_not] at hch
    by_cases hup : fsm.current_state = EMState.edge_motion ∧
        detected_edge_of tp (drag_active_of tp.tap_state) ≠ fsm.current_edge
    · rw [if_pos hup]
      exact Or.inr (Or.inr (Or.inl ⟨hch, hup.1, hup.2, rfl⟩))
    · rw [if_neg hup]
      exact Or.inr (Or.inr (Or.inr ⟨hch, hup, rfl⟩))

/-- The lazy-binding prologue of `tp_edge_motion_handle_drag_state`: either the
FSM was unbound and is re-initialized bound to the argument device, or it stays
exactly as it was. -/
theorem resolve_cases (fsm0 : EdgeMotionFsm) (tp : Device) :
    ∀ fsm, fsm = (match fsm0.tp with
      | none => tp_edge_motion_init fsm0 tp
      | some _ => fsm0) →
    (fsm0.tp = none ∧ fsm = tp_edge_motion_init fsm0 tp ∧ fsm.tp = some tp ∧
      fsm.current_state = EMState.idle ∧ fsm.timer_expire = 0) ∨
    (fsm0.tp ≠ none ∧ fsm = fsm0) := by
  intro fsm hfsm
  by_cases htp : fsm0.tp = none
  · rw [htp] at hfsm
    have h2 : fsm = tp_edge_motion_init fsm0 tp := hfsm
    have h3 : fsm.tp = some tp := by
      rw [h2]; unfold tp_edge_motion_init; rw [htp]
    have h4 : fsm.current_state = EMState.idle := by
      rw [h2]; unfold tp_edge_motion_init; rw [htp]
    have h5 : fsm.timer_expire = 0 := by
      rw [h2]; unfold tp_edge_motion_init; rw [htp]
    exact Or.inl ⟨htp, h2, h3, h4, h5⟩
  · obtain ⟨d, hd⟩ : ∃ d, fsm0.tp = some d := by
      cases hc : fsm0.tp with
      | none => exact absurd hc htp
      | some d => exact ⟨d, rfl⟩
    rw [hd] at hfsm
    exact Or.inr ⟨htp, hfsm⟩

theorem interval_ne_zero (t : Nat) : t + EDGE_MOTION_CONFIG_MIN_INTERVAL_US ≠ 0 := by
  intro h
  exact absurd (Nat.eq_zero_of_add_eq_zero_left h) (by decide)

/-! ## C5: the embedded timer is armed iff the FSM is in EDGE_MOTION -/

/-- C5 (confirmed): if the FSM satisfies the armed-iff-EDGE_MOTION invariant
(plus the unbound-implies-idle guard of the zero-initialized/cleaned state),
then: the invariant is preserved by every `tp_edge_motion_handle_drag_state`
cycle and by every firing of the embedded timer; every transition out of
`EDGE_MOTION` (for any reason, including drag ending) leaves the timer
cancelled and the continuous-motion counter zero; and every transition into
`EDGE_MOTION` arms the timer to `time + 8000 µs` through exactly one
synchronous invocation of `tp_edge_motion_handle_timeout`. -/
theorem edge_motion_timer_armed_iff (fsm0 : EdgeMotionFsm) (tp : Device) (t : Nat)
    (hinv : ArmIff fsm0) :
    ArmIff (tp_edge_motion_handle_drag_state fsm0 tp t).1 ∧
    ArmIff (edge_motion_timer_fire fsm0 t).1 ∧
    (fsm0.current_state = EMState.edge_motion →
      (tp_edge_motion_handle_drag_state fsm0 tp t).1.current_state ≠ EMState.edge_motion →
      (tp_edge_motion_handle_drag_state fsm0 tp t).1.timer_expire = 0 ∧
      (tp_edge_motion_handle_drag_state fsm0 tp t).1.continuous_motion_count = 0) ∧
    (fsm0.current_state ≠ EMState.edge_motion →
      (tp_edge_motion_handle_drag_state fsm0 tp t).1.current_state = EMState.edge_motion →
      (tp_edge_motion_handle_drag_state fsm0 tp t).1.timer_expire =
        t + EDGE_MOTION_CONFIG_MIN_INTERVAL_US ∧
      (tp_edge_motion_handle_drag_state fsm0 tp t).1.timer_expire ≠ 0 ∧
      ∃ fmid : EdgeMotionFsm, fmid.current_state = EMState.edge_motion ∧
        fmid.last_motion_time = t ∧ fmid.tp = (match fsm0.tp with
          | none => tp_edge_motion_init fsm0 tp
          | some _ => fsm0).tp ∧ fmid.tp ≠ none ∧
        tp_edge_motion_handle_drag_state fsm0 tp t =
          ((tp_edge_motion_handle_timeout fmid t).1,
            (tp_edge_motion_handle_timeout fmid t).2, true)) := by
  have hspec := hds_spec fsm0 tp t _ rfl
  have hres := resolve_cases fsm0 tp _ rfl
  set fsm := (match fsm0.tp with
    | none => tp_edge_motion_init fsm0 tp
    | some _ => fsm0) with hfsmdef
  have htpne : fsm.tp ≠ none := by
    rcases hres with ⟨-, -, h, -, -⟩ | ⟨h, heq⟩
    · rw [h]; exact fun hc => by cases hc
    · rw [heq]; exact h
  have hcore : fsm.timer_expire ≠ 0 ↔ fsm.current_state = EMState.edge_motion := by
    rcases hres with ⟨-, -, -, hst, hexp⟩ | ⟨-, heq⟩
    · rw [hst, hexp]
      constructor
      · intro h; exact absurd rfl h
      · intro h; cases h
    · rw [heq]; exact hinv.1
  obtain ⟨d, hd⟩ : ∃ d, fsm.tp = some d := by
    cases hc : fsm.tp with
    | none => exact absurd hc htpne
    | some d => exact ⟨d, rfl⟩
  have hfire : ArmIff (edge_motion_timer_fire fsm0 t).1 := by
    unfold edge_motion_timer_fire
    by_cases hdue : fsm0.timer_expire ≠ 0 ∧ fsm0.timer_expire ≤ t
    · rw [if_pos hdue]
      have hst : fsm0.current_state = EMState.edge_motion := hinv.1.1 hdue.1
      obtain ⟨d0, hd0⟩ : ∃ d0, fsm0.tp = some d0 := by
        cases hc : fsm0.tp with
        | none => exact absurd (hinv.2 hc) (by rw [hst]; exact fun hc2 => by cases hc2)
        | some d0 => exact ⟨d0, rfl⟩
      have h1 : ({ fsm0 with timer_expire := 0 } : EdgeMotionFsm).current_state =
          EMState.edge_motion := hst
      have h2 : ({ fsm0 with timer_expire := 0 } : EdgeMotionFsm).tp = some d0 := hd0
      constructor
      · rw [ht_expire_armed _ t d0 h1 h2, (ht_fields _ t).1]
        constructor
        · intro _; exact hst
        · intro _; exact interval_ne_zero t
      · rw [(ht_fields _ t).2, h2]
        intro hc; cases hc
    · rw [if_neg hdue]
      exact hinv
  rcases hspec with ⟨hch, hne, heq⟩ | ⟨hch, hns, heq⟩ | ⟨hch, hst, hde, heq⟩ | ⟨hch, hnup, heq⟩
  · -- transition to IDLE / DRAG_ACTIVE
    rw [heq]
    refine ⟨⟨?_, ?_⟩, hfire, ?_, ?_⟩
    · constructor
      · intro h; exact absurd rfl h
      · intro h; exact absurd (show next_state_of tp = EMState.edge_motion from h) hne
    · intro hc
      exact absurd hc htpne
    · intro _ _; exact ⟨rfl, rfl⟩
    · intro _ habs
      exact absurd habs hne
  · -- transition into EDGE_MOTION
    rw [heq]
    have hstC : ({ fsm with
        current_state := EMState.edge_motion
        current_edge := detected_edge_of tp (drag_active_of tp.tap_state)
        motion_dx := (calculate_motion_vector
          (detected_edge_of tp (drag_active_of tp.tap_state))).1
        motion_dy := (calculate_motion_vector
          (detected_edge_of tp (drag_active_of tp.tap_state))).2
        last_motion_time := t } : EdgeMotionFsm).current_state = EMState.edge_motion := rfl
    have htpC : ({ fsm with
        current_state := EMState.edge_motion
        current_edge := detected_edge_of tp (drag_active_of tp.tap_state)
        motion_dx := (calculate_motion_vector
          (detected_edge_of tp (drag_active_of tp.tap_state))).1
        motion_dy := (calculate_motion_vector
          (detected_edge_of tp (drag_active_of tp.tap_state))).2
        last_motion_time := t } : EdgeMotionFsm).tp = some d := hd
    refine ⟨⟨?_, ?_⟩, hfire, ?_, ?_⟩
    · rw [ht_expire_armed _ t d hstC htpC, (ht_fields _ t).1, hstC]
      constructor
      · intro _; rfl
      · intro _; exact interval_ne_zero t
    · rw [(ht_fields _ t).2, htpC]
      intro hc; cases hc
    · intro _ hnot
      rw [(ht_fields _ t).1, hstC] at hnot
      exact absurd rfl hnot
    · intro _ _
      refine ⟨ht_expire_armed _ t d hstC htpC, ?_, ?_⟩
      · rw [ht_expire_armed _ t d hstC htpC]; exact interval_ne_zero t
      · exact ⟨_, hstC, rfl, htpC.trans hd.symm, (by rw [htpC]; intro hc; cases hc), rfl⟩
  · -- EDGE_MOTION with a changed edge set
    rw [heq]
    have hfsmedge : fsm.current_state = EMState.edge_motion := hst
    refine ⟨⟨?_, ?_⟩, hfire, ?_, ?_⟩
    · constructor
      · intro _; exact hfsmedge
      · intro _; exact hcore.2 hfsmedge
    · intro hc; exact absurd hc htpne
    · intro _ habs
      exact absurd hfsmedge habs
    · intro hne0 _
      rcases hres with ⟨htpnone, -, -, hidle, -⟩ | ⟨-, heq2⟩
      · rw [hidle] at hfsmedge; cases hfsmedge
      · rw [heq2] at hfsmedge; exact absurd hfsmedge hne0
  · -- no state change, no edge update
    rw [heq]
    have hcore2 : ArmIff fsm := ⟨hcore, fun hc => absurd hc htpne⟩
    refine ⟨hcore2, hfire, ?_, ?_⟩
    · intro hedge0 hnot
      rcases hres with ⟨htpnone, -, -, -, -⟩ | ⟨-, heq2⟩
      · have hidle0 := hinv.2 htpnone
        rw [hidle0] at hedge0; cases hedge0
      · rw [heq2] at hnot
        exact absurd hedge0 hnot
    · intro hnedge hedge
      rcases hres with ⟨-, -, -, hidle, -⟩ | ⟨-, heq2⟩
      · rw [hidle] at hedge; cases hedge
      · rw [heq2] at hedge; exact absurd hedge hnedge

/-- Witness for `edge_motion_timer_armed_iff`: the zero-initialized FSM, a
drag-active device with a left-edge touch, `t = 1000000`. -/
theorem edge_motion_timer_armed_iff_witness :
    ArmIff (tp_edge_motion_handle_drag_state fsmInitial devDragLeft 1000000).1 ∧
    ArmIff (edge_motion_timer_fire fsmInitial 1000000).1 ∧
    (fsmInitial.current_state = EMState.edge_motion →
      (tp_edge_motion_handle_drag_state fsmInitial devDragLeft 1000000).1.current_state ≠
        EMState.edge_motion →
      (tp_edge_motion_handle_drag_state fsmInitial devDragLeft 1000000).1.timer_expire = 0 ∧
      (tp_edge_motion_handle_drag_state fsmInitial devDragLeft
        1000000).1.continuous_motion_count = 0) ∧
    (fsmInitial.current_state ≠ EMState.edge_motion →
      (tp_edge_motion_handle_drag_state fsmInitial devDragLeft 1000000).1.current_state =
        EMState.edge_motion →
      (tp_edge_motion_handle_drag_state fsmInitial devDragLeft 1000000).1.timer_expire =
        1000000 + EDGE_MOTION_CONFIG_MIN_INTERVAL_US ∧
      (tp_edge_motion_handle_drag_state fsmInitial devDragLeft 1000000).1.timer_expire ≠ 0 ∧
      ∃ fmid : EdgeMotionFsm, fmid.current_state = EMState.edge_motion ∧
        fmid.last_motion_time = 1000000 ∧ fmid.tp = (match fsmInitial.tp with
          | none => tp_edge_motion_init fsmInitial devDragLeft
          | some _ => fsmInitial).tp ∧ fmid.tp ≠ none ∧
        tp_edge_motion_handle_drag_state fsmInitial devDragLeft 1000000 =
          ((tp_edge_motion_handle_timeout fmid 1000000).1,
            (tp_edge_motion_handle_timeout fmid 1000000).2, true)) :=
  edge_motion_timer_armed_iff fsmInitial devDragLeft 1000000 ⟨by decide, fun _ => rfl⟩

/-! ## C6: first injection is baseline-only, the second notifies once -/

/-- C6 (confirmed): on every transition into `EDGE_MOTION` at a valid
(non-zero-sentinel) time `t`, the synchronous first invocation of the
injection path emits no notification and leaves the last-injection baseline at
`t` with the timer armed to `t + 8000 µs`; the second invocation — the timer
firing at that expiry — emits exactly one notification. -/
theorem first_injection_baseline_second_notifies (fsm0 : EdgeMotionFsm) (tp : Device)
    (t : Nat) (ht0 : t ≠ 0) (hnotedge : fsm0.current_state ≠ EMState.edge_motion)
    (hdrag : drag_active_of tp.tap_state = true)
    (hedge : detected_edge_of tp (drag_active_of tp.tap_state) ≠ EDGE_NONE) :
    (tp_edge_motion_handle_drag_state fsm0 tp t).1.current_state = EMState.edge_motion ∧
    (tp_edge_motion_handle_drag_state fsm0 tp t).2.1 = [] ∧
    (tp_edge_motion_handle_drag_state fsm0 tp t).1.last_motion_time = t ∧
    (tp_edge_motion_handle_drag_state fsm0 tp t).1.timer_expire =
      t + EDGE_MOTION_CONFIG_MIN_INTERVAL_US ∧
    (edge_motion_timer_fire (tp_edge_motion_handle_drag_state fsm0 tp t).1
        (t + EDGE_MOTION_CONFIG_MIN_INTERVAL_US)).2.length = 1 := by
  have hspec := hds_spec fsm0 tp t _ rfl
  have hres := resolve_cases fsm0 tp _ rfl
  set fsm := (match fsm0.tp with
    | none => tp_edge_motion_init fsm0 tp
    | some _ => fsm0) with hfsmdef
  have hfsmne : fsm.current_state ≠ EMState.edge_motion := by
    rcases hres with ⟨-, -, -, hidle, -⟩ | ⟨-, heq2⟩
    · rw [hidle]; intro hc; cases hc
    · rw [heq2]; exact hnotedge
  obtain ⟨d, hd⟩ : ∃ d, fsm.tp = some d := by
    rcases hres with ⟨-, -, h, -, -⟩ | ⟨h, heq2⟩
    · exact ⟨tp, h⟩
    · rw [heq2]
      cases hc : fsm0.tp with
      | none => exact absurd hc h
      | some d => exact ⟨d, rfl⟩
  have hnext : next_state_of tp = EMState.edge_motion := by
    unfold next_state_of
    rw [hdrag] at hedge ⊢
    simp only [if_true]
    rw [if_pos hedge]
  rcases hspec with ⟨-, hne, heq⟩ | ⟨-, -, heq⟩ | ⟨-, hst, -, heq⟩ | ⟨hch, -, heq⟩
  · exact absurd hnext hne
  · -- the entering branch
    rw [heq]
    set de := detected_edge_of tp (drag_active_of tp.tap_state) with hde
    set fsmC : EdgeMotionFsm := { fsm with
      current_state := EMState.edge_motion
      current_edge := de
      motion_dx := (calculate_motion_vector de).1
      motion_dy := (calculate_motion_vector de).2
      last_motion_time := t } with hfsmC
    have hCst : fsmC.current_state = EMState.edge_motion := rfl
    have hCtp : fsmC.tp = some d := hd
    have hClast : fsmC.last_motion_time = t := rfl
    have hinj1 : inject_accumulated_motion fsmC d t = (fsmC, []) := by
      apply inject_below_threshold fsmC d t (by rw [hClast]; exact ht0)
      rw [hClast, Nat.sub_self]
      norm_num [EDGE_MOTION_CONFIG_SPEED_MM_S]
    have hht1 : tp_edge_motion_handle_timeout fsmC t =
        ({ fsmC with timer_expire := t + EDGE_MOTION_CONFIG_MIN_INTERVAL_US }, []) := by
      rw [ht_edge fsmC t d hCst hCtp, hinj1]
    rw [hht1]
    refine ⟨rfl, rfl, rfl, rfl, ?_⟩
    -- the second invocation: the timer fires at t + 8000
    unfold edge_motion_timer_fire
    rw [if_pos ⟨interval_ne_zero t, Nat.le_refl _⟩]
    have hht2 := ht_edge ({ { fsmC with
        timer_expire := t + EDGE_MOTION_CONFIG_MIN_INTERVAL_US } with timer_expire := 0 })
      (t + EDGE_MOTION_CONFIG_MIN_INTERVAL_US) d rfl hd
    rw [hht2]
    have hnb : ({ { fsmC with timer_expire := t + EDGE_MOTION_CONFIG_MIN_INTERVAL_US } with
        timer_expire := 0 } : EdgeMotionFsm).last_motion_time = t := rfl
    have := inject_notifies ({ { fsmC with
        timer_expire := t + EDGE_MOTION_CONFIG_MIN_INTERVAL_US } with timer_expire := 0 })
      d (t + EDGE_MOTION_CONFIG_MIN_INTERVAL_US)
      (by rw [hnb]; exact ht0)
      (by
        rw [hnb, Nat.add_sub_cancel_left]
        norm_num [EDGE_MOTION_CONFIG_SPEED_MM_S, EDGE_MOTION_CONFIG_MIN_INTERVAL_US])
    exact this.1
  · exact absurd hst hfsmne
  · exact absurd (hch.symm.trans hnext) hfsmne

/-- Witness for `first_injection_baseline_second_notifies`: entry from the
zero-initialized FSM at `t = 1000000` on `devDragLeft`. -/
theorem first_injection_baseline_witness :
    (tp_edge_motion_handle_drag_state fsmInitial devDragLeft 1000000).1.current_state =
      EMState.edge_motion ∧
    (tp_edge_motion_handle_drag_state fsmInitial devDragLeft 1000000).2.1 = [] ∧
    (tp_edge_motion_handle_drag_state fsmInitial devDragLeft 1000000).1.last_motion_time =
      1000000 ∧
    (tp_edge_motion_handle_drag_state fsmInitial devDragLeft 1000000).1.timer_expire =
      1000000 + EDGE_MOTION_CONFIG_MIN_INTERVAL_US ∧
    (edge_motion_timer_fire (tp_edge_motion_handle_drag_state fsmInitial devDragLeft 1000000).1
        (1000000 + EDGE_MOTION_CONFIG_MIN_INTERVAL_US)).2.length = 1 :=
  first_injection_baseline_second_notifies fsmInitial devDragLeft 1000000
    (by decide) (by decide) (by decide) (by decide)

/-! ## C7: the edge bitmask per-axis exclusivity -/

/-- C7 (counterexample): "never has both LEFT and RIGHT set" fails for a
device geometry narrower than twice the 5 mm margin: `detect_touch_edge` runs
the left and right near-boundary tests independently (two `if`s, not
`else if`), so on `devTiny` (6 mm wide: 0..60 units at 10 units/mm, margin 50
units) the touch at x = 20 satisfies both `x < 50` and `x > 60 - 50`. -/
theorem edge_both_left_right_on_tiny_device :
    detect_touch_edge devTiny ⟨.touch_active, 20, 500⟩ = EDGE_LEFT ||| EDGE_RIGHT ∧
    detect_touch_edge devTiny ⟨.touch_active, 20, 500⟩ &&& EDGE_LEFT ≠ 0 ∧
    detect_touch_edge devTiny ⟨.touch_active, 20, 500⟩ &&& EDGE_RIGHT ≠ 0 := by
  refine ⟨by decide, by decide, by decide⟩

/-- C7 (amended): whenever the device's axis range is at least twice the
converted 5 mm margin (minus one unit) — every physically sensible geometry —
the bitmask computed by `detect_touch_edge` never has both LEFT and RIGHT set
and never has both TOP and BOTTOM set; LEFT/RIGHT do combine with TOP/BOTTOM
across axes to form corners (`devCorner` at (10, 10) yields `LEFT ||| TOP`). -/
theorem edge_bitmask_per_axis_exclusive (d : Device) (t : Touch)
    (hx : 2 * (evdev_device_mm_to_units d EDGE_MOTION_CONFIG_EDGE_THRESHOLD_MM
      EDGE_MOTION_CONFIG_EDGE_THRESHOLD_MM).1 - 1 ≤ d.max_x)
    (hy : 2 * (evdev_device_mm_to_units d EDGE_MOTION_CONFIG_EDGE_THRESHOLD_MM
      EDGE_MOTION_CONFIG_EDGE_THRESHOLD_MM).2 - 1 ≤ d.max_y) :
    ¬(detect_touch_edge d t &&& EDGE_LEFT ≠ 0 ∧
      detect_touch_edge d t &&& EDGE_RIGHT ≠ 0) ∧
    ¬(detect_touch_edge d t &&& EDGE_TOP ≠ 0 ∧
      detect_touch_edge d t &&& EDGE_BOTTOM ≠ 0) ∧
    detect_touch_edge devCorner ⟨.touch_active, 10, 10⟩ = EDGE_LEFT ||| EDGE_TOP := by
  simp only [evdev_device_mm_to_units] at hx hy
  refine ⟨?_, ?_, by decide⟩ <;>
  · simp only [detect_touch_edge, evdev_device_mm_to_units, EDGE_NONE, EDGE_LEFT,
      EDGE_RIGHT, EDGE_TOP, EDGE_BOTTOM, EDGE_MOTION_CONFIG_EDGE_THRESHOLD_MM] at *
    split_ifs <;> first | (exfalso; omega) | decide

/-- Witness for `edge_bitmask_per_axis_exclusive`: `devCorner` with a touch in
the middle of its left edge. -/
theorem edge_bitmask_per_axis_exclusive_witness :
    ¬(detect_touch_edge devCorner ⟨.touch_active, 10, 500⟩ &&& EDGE_LEFT ≠ 0 ∧
      detect_touch_edge devCorner ⟨.touch_active, 10, 500⟩ &&& EDGE_RIGHT ≠ 0) ∧
    ¬(detect_touch_edge devCorner ⟨.touch_active, 10, 500⟩ &&& EDGE_TOP ≠ 0 ∧
      detect_touch_edge devCorner ⟨.touch_active, 10, 500⟩ &&& EDGE_BOTTOM ≠ 0) ∧
    detect_touch_edge devCorner ⟨.touch_active, 10, 10⟩ = EDGE_LEFT ||| EDGE_TOP :=
  edge_bitmask_per_axis_exclusive devCorner ⟨.touch_active, 10, 500⟩
    (by decide) (by decide)

/-! ## C9: double-binding the FSM -/

/-- C9 (counterexample): binding the FSM to a second device while bound is
*not* a fatal assertion: `tp_edge_motion_init` takes the `if (fsm.tp) return;`
early-exit and returns with the FSM completely unchanged — no log, no abort. -/
theorem double_bind_is_silent_noop :
    fsmBoundA.tp = some devDragLeft ∧
    devOther.id ≠ devDragLeft.id ∧
    tp_edge_motion_init fsmBoundA devOther = fsmBoundA := by
  refine ⟨rfl, by decide, rfl⟩

/-- C9 (amended): re-binding the FSM while it is already bound (to any device)
is a silent no-op guard — the call returns immediately with the FSM, its
binding included, unchanged; it is not logged and the process is not aborted
(matching §3's "no-op guard", not §7's "fatal" taxonomy entry). -/
theorem rebind_is_noop (fsm : EdgeMotionFsm) (d d0 : Device) (h : fsm.tp = some d0) :
    tp_edge_motion_init fsm d = fsm := by
  unfold tp_edge_motion_init
  rw [h]

/-- Witness for `rebind_is_noop`: re-binding `fsmBoundA` to `devOther`. -/
theorem rebind_is_noop_witness :
    tp_edge_motion_init fsmBoundA devOther = fsmBoundA :=
  rebind_is_noop fsmBoundA devOther devDragLeft rfl

/-! ## C10: stale binding — argument device drives the FSM, bound device gets
the motion -/

theorem inject_dev (fsm : EdgeMotionFsm) (d : Device) (t : Nat) :
    ∀ m ∈ (inject_accumulated_motion fsm d t).2, m.dev = d.id := by
  simp only [inject_accumulated_motion]
  split_ifs <;> intro m hm
  · cases hm
  · cases hm
  · rcases List.mem_singleton.1 hm with rfl
    rfl

theorem ht_motions_dev (fsm : EdgeMotionFsm) (now : Nat) (d : Device)
    (hd : fsm.tp = some d) :
    ∀ m ∈ (tp_edge_motion_handle_timeout fsm now).2, m.dev = d.id := by
  by_cases h1 : fsm.current_state = EMState.edge_motion
  · rw [ht_edge fsm now d h1 hd]
    exact inject_dev fsm d now
  · rw [ht_not_edge fsm now h1]
    intro m hm
    cases hm

theorem fire_motions_dev (fsm : EdgeMotionFsm) (now : Nat) (d : Device)
    (hd : fsm.tp = some d) :
    ∀ m ∈ (edge_motion_timer_fire fsm now).2, m.dev = d.id := by
  unfold edge_motion_timer_fire
  split_ifs with hdue
  · exact ht_motions_dev _ now d hd
  · intro m hm
    cases hm

/-- C10 (confirmed): when the FSM is already bound to device `A` and the
per-cycle entry point is called with a different device `B`, the binding is
left unchanged (no rebind, no error); the state transition for the call is
computed from `B`'s tap state, touches and geometry (`next_state_of B`); and
every motion notification — from the synchronous entry injection and from any
later firing of the embedded timer — is filtered through and notified on the
originally bound device `A`. -/
theorem stale_binding_drives_bound_device (fsm0 : EdgeMotionFsm) (A B : Device)
    (t : Nat) (hbound : fsm0.tp = some A) :
    (tp_edge_motion_handle_drag_state fsm0 B t).1.tp = some A ∧
    (tp_edge_motion_handle_drag_state fsm0 B t).1.current_state = next_state_of B ∧
    (∀ m ∈ (tp_edge_motion_handle_drag_state fsm0 B t).2.1, m.dev = A.id) ∧
    (∀ now, ∀ m ∈ (edge_motion_timer_fire (tp_edge_motion_handle_drag_state fsm0 B t).1
        now).2, m.dev = A.id) := by
  have hspec := hds_spec fsm0 B t _ rfl
  have hres := resolve_cases fsm0 B _ rfl
  set fsm := (match fsm0.tp with
    | none => tp_edge_motion_init fsm0 B
    | some _ => fsm0) with hfsmdef
  have hfsm0 : fsm = fsm0 := by
    rcases hres with ⟨hnone, -⟩ | ⟨-, heq2⟩
    · rw [hnone] at hbound; cases hbound
    · exact heq2
  rcases hspec with ⟨-, hne, heq⟩ | ⟨-, hns, heq⟩ | ⟨hch, hst, -, heq⟩ | ⟨hch, -, heq⟩
  · rw [heq, hfsm0]
    refine ⟨hbound, rfl, ?_, ?_⟩
    · intro m hm
      cases hm
    · intro now
      exact fire_motions_dev _ now A hbound
  · rw [heq]
    have hCtp : ({ fsm with
        current_state := EMState.edge_motion
        current_edge := detected_edge_of B (drag_active_of B.tap_state)
        motion_dx := (calculate_motion_vector
          (detected_edge_of B (drag_active_of B.tap_state))).1
        motion_dy := (calculate_motion_vector
          (detected_edge_of B (drag_active_of B.tap_state))).2
        last_motion_time := t } : EdgeMotionFsm).tp = some A := by
      rw [show ({ fsm with
        current_state := EMState.edge_motion
        current_edge := detected_edge_of B (drag_active_of B.tap_state)
        motion_dx := (calculate_motion_vector
          (detected_edge_of B (drag_active_of B.tap_state))).1
        motion_dy := (calculate_motion_vector
          (detected_edge_of B (drag_active_of B.tap_state))).2
        last_motion_time := t } : EdgeMotionFsm).tp = fsm.tp from rfl, hfsm0]
      exact hbound
    refine ⟨?_, ?_, ?_, ?_⟩
    · rw [(ht_fields _ t).2]
      exact hCtp
    · rw [(ht_fields _ t).1, hns]
    · exact ht_motions_dev _ t A hCtp
    · intro now
      apply fire_motions_dev _ now A
      rw [(ht_fields _ t).2]
      exact hCtp
  · rw [heq, hfsm0]
    refine ⟨hbound, ?_, ?_, ?_⟩
    · exact (hch.trans (congrArg EdgeMotionFsm.current_state hfsm0)).symm
    · intro m hm
      cases hm
    · intro now
      exact fire_motions_dev _ now A hbound
  · rw [heq, hfsm0]
    refine ⟨hbound, ?_, ?_, ?_⟩
    · exact (hch.trans (congrArg EdgeMotionFsm.current_state hfsm0)).symm
    · intro m hm
      cases hm
    · intro now
      exact fire_motions_dev _ now A hbound

/-- Witness for `stale_binding_drives_bound_device`: FSM bound to
`devDragLeft` (id 7), called with `devOther` (id 8). -/
theorem stale_binding_drives_bound_device_witness :
    (tp_edge_motion_handle_drag_state fsmBoundA devOther 1000000).1.tp =
      some devDragLeft ∧
    (tp_edge_motion_handle_drag_state fsmBoundA devOther 1000000).1.current_state =
      next_state_of devOther ∧
    (∀ m ∈ (tp_edge_motion_handle_drag_state fsmBoundA devOther 1000000).2.1,
      m.dev = devDragLeft.id) ∧
    (∀ now, ∀ m ∈ (edge_motion_timer_fire
        (tp_edge_motion_handle_drag_state fsmBoundA devOther 1000000).1 now).2,
      m.dev = devDragLeft.id) :=
  stale_binding_drives_bound_device fsmBoundA devDragLeft devOther 1000000 rfl

/-! ## C8: usec round-trip claims -/

/-- C8 (counterexample): the round-trip through milliseconds does not recover
the truncated value for every `usec`: at `us = 4294968000` (≈ 71.6 minutes,
whose millisecond truncation exceeds `2^32`), the `uint32_t` wrap in
`usec_from_millis`'s `millis * 1000` makes the round-trip return `704`, not
`4294968000`. -/
theorem usec_roundtrip_wraps_above_u32 :
    usec_to_millis 4294968000 = 4294968 ∧
    usec_from_millis (usec_to_millis 4294968000) = 704 ∧
    usec_from_millis (usec_to_millis 4294968000) ≠ 4294968000 - 4294968000 % 1000 := by
  refine ⟨by decide, by decide, by decide⟩

/-- C8 (amended): for every `usec` value below `2^32` µs (≈ 71.6 minutes),
converting to milliseconds / seconds / hours and back through the matching
constructor yields the original value truncated down to the coarser unit's
resolution; above that, the `uint32_t` narrowing in the helpers wraps mod
`2^32`. -/
theorem usec_roundtrip_truncates_below_u32 (us : Nat) (h : us < 2 ^ 32) :
    usec_from_millis (usec_to_millis us) = us - us % 1000 ∧
    usec_from_seconds (usec_to_seconds us) = us - us % 1000000 ∧
    usec_from_hours (usec_to_hours us) = us - us % 3600000000 := by
  simp only [usec_from_millis, usec_to_millis, usec_from_seconds, usec_to_seconds,
    usec_from_hours, usec_to_hours, usec_to_minutes, u32, U32MOD]
  refine ⟨?_, ?_, ?_⟩ <;> omega

/-- Witness for `usec_roundtrip_truncates_below_u32` at `us = 123456789`. -/
theorem usec_roundtrip_truncates_witness :
    usec_from_millis (usec_to_millis 123456789) = 123456789 - 123456789 % 1000 ∧
    usec_from_seconds (usec_to_seconds 123456789) = 123456789 - 123456789 % 1000000 ∧
    usec_from_hours (usec_to_hours 123456789) = 123456789 - 123456789 % 3600000000 :=
  usec_roundtrip_truncates_below_u32 123456789 (by decide)

end Libinput
